import Mathlib

/-!
# Lambda shell runtime: the runtime API client and the invocation loop

A shallow embedding of `runtime/main.go`.  Go strings and byte slices are
lists of bytes; a byte is a natural number below 256.  The network is an
explicit input: dialling either fails or gives a connection whose incoming
data is a list of chunks, one chunk per successful `Read` of the socket.
Everything the program writes to a connection is returned as a value.  The
memory the process can still obtain for the body of an invocation is an
explicit input as well.
-/

namespace LambdaShell

/-! ## Bytes and strings -/

/-- A Go `string` or `[]byte`: a sequence of bytes, each a natural number
(below 256 for every real input). -/
abbrev Str := List Nat

/-- UTF-8 encoding of one code point, as the Go compiler stores string literals. -/
def encodeRune (c : Nat) : List Nat :=
  if c < 0x80 then [c]
  else if c < 0x800 then [0xC0 + c / 64, 0x80 + c % 64]
  else if c < 0x10000 then [0xE0 + c / 4096, 0x80 + c / 64 % 64, 0x80 + c % 64]
  else [0xF0 + c / 262144, 0x80 + c / 4096 % 64, 0x80 + c / 64 % 64, 0x80 + c % 64]

/-- The bytes of a string literal of the source. -/
def lit (s : String) : Str :=
  (s.toList.map (fun c => encodeRune c.toNat)).flatten

/-! ## `fmt.Fprintf` -/

/-- Decimal digits of `n`, most significant first (`fmt`'s integer formatting loop). -/
def fmtDigits : Nat → Nat → List Nat → List Nat
  | 0, _, acc => acc
  | fuel + 1, u, acc =>
    if u < 10 then (48 + u) :: acc
    else fmtDigits fuel (u / 10) ((48 + u % 10) :: acc)

/-- The verb `%d` applied to a non-negative integer. -/
def fmtUint (n : Nat) : Str := fmtDigits (n + 1) n []

/-- The verb `%d` applied to an `int`. -/
def fmtInt (i : Int) : Str :=
  if i < 0 then 45 :: fmtUint i.natAbs else fmtUint i.natAbs

/-- An operand of `Fprintf`. -/
inductive Arg where
  | str (s : Str)
  | bytes (b : List Nat)
  | int (i : Int)
  deriving DecidableEq, Repr

/-- The text produced by a format string and its operands.  The fragment of
`fmt` the program uses is modelled: plain bytes, `%%`, `%s` on a string or a
byte slice and `%d` on an integer; any other use gives `none`. -/
def Sprintf : Str → List Arg → Option Str
  | [], [] => some []
  | [], _ :: _ => none
  | 37 :: 37 :: rest, args => (Sprintf rest args).map (fun t => 37 :: t)
  | 37 :: 115 :: rest, Arg.str s :: args => (Sprintf rest args).map (fun t => s ++ t)
  | 37 :: 115 :: rest, Arg.bytes b :: args => (Sprintf rest args).map (fun t => b ++ t)
  | 37 :: 100 :: rest, Arg.int i :: args => (Sprintf rest args).map (fun t => fmtInt i ++ t)
  | 37 :: _, _ => none
  | c :: rest, args => (Sprintf rest args).map (fun t => c :: t)

/-- The bytes `fmt.Fprintf(conn, format, args...)` writes to the connection. -/
def Fprintf (format : Str) (args : List Arg) : Str :=
  (Sprintf format args).getD []

/-! ## The network -/

/-- The outcome of `net.Dial("tcp", host)`: an error, or a connection on which
the peer's data arrives as the given chunks and then the stream ends. -/
inductive Dial where
  | refused (err : Str)
  | connected (incoming : List (List Nat))
  deriving DecidableEq, Repr

/-- The client: the control-plane address. -/
structure runtimeAPIClient where
  host : Str
  deriving DecidableEq, Repr

def newRuntimeAPIClient (address : Str) : runtimeAPIClient := ⟨address⟩

/-- What a submit operation did: the bytes written to its connection (`none`
when no connection was opened) and the returned error (`none` for `nil`). -/
structure SubmitResult where
  written : Option Str
  err : Option Str
  deriving DecidableEq, Repr

/-- Method `sendResponse`. -/
def sendResponse (c : runtimeAPIClient) (net : Dial) (requestID : Str)
    (response : List Nat) : SubmitResult :=
  match net with
  | Dial.refused err => { written := none, err := some err }
  | Dial.connected _ =>
    { written := some (Fprintf
        (lit "POST /2018-06-01/runtime/invocation/%s/response HTTP/1.1\r\nHost: %s\r\nContent-Length: %d\r\n\r\n%s")
        [Arg.str requestID, Arg.str c.host, Arg.int response.length, Arg.bytes response])
      err := none }

/-- The payload `sendError` builds from the error message. -/
def errorPayload (errorMsg : Str) : Str :=
  lit "\x7b\"errorMessage\": \"" ++ errorMsg ++ lit "\", \"errorType\": \"Runtime.HandlerError\"\x7d"

/-- Method `sendError`. -/
def sendError (c : runtimeAPIClient) (net : Dial) (requestID errorMsg : Str) : SubmitResult :=
  match net with
  | Dial.refused err => { written := none, err := some err }
  | Dial.connected _ =>
    { written := some (Fprintf
        (lit "POST /2018-06-01/runtime/invocation/%s/error HTTP/1.1\r\nHost: %s\r\nContent-Length: %d\r\n\r\n%s")
        [Arg.str requestID, Arg.str c.host, Arg.int (errorPayload errorMsg).length,
         Arg.str (errorPayload errorMsg)])
      err := none }

/-! ## `strings` and `unicode/utf8` -/

/-- Function `strings.HasPrefix`. -/
def HasPrefix (s pre : Str) : Bool := pre.isPrefixOf s

/-- The rune `utf8.RuneError`. -/
def RuneError : Nat := 0xFFFD

/-- Function `utf8.DecodeRuneInString`: the first rune of `s` and its width in
bytes; an invalid encoding gives `(RuneError, 1)`, the empty string
`(RuneError, 0)`. -/
def DecodeRuneInString (s : Str) : Nat × Nat :=
  match s with
  | [] => (RuneError, 0)
  | s0 :: t =>
    if s0 < 0x80 then (s0, 1)
    else if s0 < 0xC2 ∨ 0xF4 < s0 then (RuneError, 1)
    else
      let sz := if s0 < 0xE0 then 2 else if s0 < 0xF0 then 3 else 4
      let lo := if s0 = 0xE0 then 0xA0 else if s0 = 0xF0 then 0x90 else 0x80
      let hi := if s0 = 0xED then 0x9F else if s0 = 0xF4 then 0x8F else 0xBF
      if s.length < sz then (RuneError, 1)
      else
        match t with
        | [] => (RuneError, 1)
        | s1 :: t1 =>
          if s1 < lo ∨ hi < s1 then (RuneError, 1)
          else if sz ≤ 2 then (s0 % 32 * 64 + s1 % 64, 2)
          else
            match t1 with
            | [] => (RuneError, 1)
            | s2 :: t2 =>
              if s2 < 0x80 ∨ 0xBF < s2 then (RuneError, 1)
              else if sz ≤ 3 then (s0 % 16 * 4096 + s1 % 64 * 64 + s2 % 64, 3)
              else
                match t2 with
                | [] => (RuneError, 1)
                | s3 :: _ =>
                  if s3 < 0x80 ∨ 0xBF < s3 then (RuneError, 1)
                  else (s0 % 8 * 262144 + s1 % 64 * 4096 + s2 % 64 * 64 + s3 % 64, 4)

/-- Function `utf8.RuneStart`: the byte is not a continuation byte. -/
def RuneStart (b : Nat) : Bool := b / 64 % 4 != 2

/-- The backwards scan of `utf8.DecodeLastRuneInString` for the start of the
last rune: from `start` down to `lim`, at most three positions. -/
def scanRuneStart (s : Str) (lim : Int) : Nat → Int → Int
  | 0, start => start
  | k + 1, start =>
    if start < lim then start
    else if RuneStart (s.getD start.toNat 0) then start
    else scanRuneStart s lim k (start - 1)

/-- Function `utf8.DecodeLastRuneInString`. -/
def DecodeLastRuneInString (s : Str) : Nat × Nat :=
  let stop := s.length
  if stop = 0 then (RuneError, 0)
  else
    let r := s.getD (stop - 1) 0
    if r < 0x80 then (r, 1)
    else
      let lim : Int := if (stop : Int) - 4 < 0 then 0 else (stop : Int) - 4
      let start0 := scanRuneStart s lim 4 ((stop : Int) - 2)
      let start := if start0 < 0 then 0 else start0.toNat
      let (r1, size) := DecodeRuneInString (s.drop start)
      if start + size ≠ stop then (RuneError, 1) else (r1, size)

/-- Function `unicode.IsSpace`. -/
def IsSpace (r : Nat) : Bool :=
  if r ≤ 0xFF then
    r = 9 ∨ r = 10 ∨ r = 11 ∨ r = 12 ∨ r = 13 ∨ r = 32 ∨ r = 0x85 ∨ r = 0xA0
  else
    r = 0x1680 ∨ (0x2000 ≤ r ∧ r ≤ 0x200A) ∨ r = 0x2028 ∨ r = 0x2029 ∨ r = 0x202F
      ∨ r = 0x205F ∨ r = 0x3000

/-- The loop of `strings.indexFunc`: the byte index of the first rune `r` with
`f r = truth`, if any. -/
def indexFuncAux (f : Nat → Bool) (truth : Bool) : Nat → Str → Nat → Option Nat
  | 0, _, _ => none
  | fuel + 1, s, i =>
    match s with
    | [] => none
    | _ :: _ =>
      let (r, size) := DecodeRuneInString s
      if f r = truth then some i else indexFuncAux f truth fuel (s.drop size) (i + size)

def indexFunc (s : Str) (f : Nat → Bool) (truth : Bool) : Option Nat :=
  indexFuncAux f truth s.length s 0

/-- The loop of `strings.lastIndexFunc`, scanning `s[0:i]` from its end. -/
def lastIndexFuncAux (f : Nat → Bool) (truth : Bool) (s : Str) : Nat → Nat → Option Nat
  | 0, _ => none
  | fuel + 1, i =>
    if i = 0 then none
    else
      let (r, size) := DecodeLastRuneInString (s.take i)
      if f r = truth then some (i - size) else lastIndexFuncAux f truth s fuel (i - size)

def lastIndexFunc (s : Str) (f : Nat → Bool) (truth : Bool) : Option Nat :=
  lastIndexFuncAux f truth s s.length s.length

/-- Function `strings.TrimLeftFunc`. -/
def TrimLeftFunc (s : Str) (f : Nat → Bool) : Str :=
  match indexFunc s f false with
  | none => []
  | some i => s.drop i

/-- Function `strings.TrimRightFunc`. -/
def TrimRightFunc (s : Str) (f : Nat → Bool) : Str :=
  match lastIndexFunc s f false with
  | none => []
  | some i =>
    if s.getD i 0 ≥ 0x80 then s.take (i + (DecodeRuneInString (s.drop i)).2)
    else s.take (i + 1)

/-- Function `strings.TrimFunc`. -/
def TrimFunc (s : Str) (f : Nat → Bool) : Str :=
  TrimRightFunc (TrimLeftFunc s f) f

/-- The table `asciiSpace` of package `strings`. -/
def asciiSpace (c : Nat) : Bool :=
  c = 9 ∨ c = 10 ∨ c = 11 ∨ c = 12 ∨ c = 13 ∨ c = 32

/-- Second loop of `strings.TrimSpace`, on the reversed remainder `s[start:]`:
drop ASCII space from the end, falling back to `TrimRightFunc` at a
non-ASCII byte. -/
def trimSpaceStop : Str → Str
  | [] => []
  | c :: t =>
    if c ≥ 0x80 then TrimRightFunc (c :: t).reverse IsSpace
    else if asciiSpace c then trimSpaceStop t
    else (c :: t).reverse

/-- Function `strings.TrimSpace`: the first loop drops ASCII space from the
start, falling back to `TrimFunc` at a non-ASCII byte. -/
def TrimSpace : Str → Str
  | [] => []
  | c :: t =>
    if c ≥ 0x80 then TrimFunc (c :: t) IsSpace
    else if asciiSpace c then TrimSpace t
    else trimSpaceStop (c :: t).reverse

/-! ## `strconv.Atoi` -/

/-- The two errors of package `strconv`. -/
inductive NumError where
  | ErrSyntax
  | ErrRange
  deriving DecidableEq, Repr

/-- The digit loop of the fast path of `Atoi`; `none` is a syntax error. -/
def atoiFast : Str → Nat → Option Nat
  | [], n => some n
  | ch :: t, n =>
    let d := (ch + 256 - 48) % 256
    if d > 9 then none else atoiFast t (n * 10 + d)

/-- The digit loop of `strconv.ParseUint(s, 10, 64)`. -/
def parseUintLoop : Str → Nat → Nat × Option NumError
  | [], n => (n, none)
  | c :: t, n =>
    if 48 ≤ c ∧ c ≤ 57 then
      if n ≥ (2 ^ 64 - 1) / 10 + 1 then (2 ^ 64 - 1, some NumError.ErrRange)
      else if n * 10 + (c - 48) > 2 ^ 64 - 1 then (2 ^ 64 - 1, some NumError.ErrRange)
      else parseUintLoop t (n * 10 + (c - 48))
    else (0, some NumError.ErrSyntax)

/-- Function `strconv.ParseUint(s, 10, 0)` on a 64-bit platform. -/
def ParseUint (s : Str) : Nat × Option NumError :=
  if s = [] then (0, some NumError.ErrSyntax) else parseUintLoop s 0

/-- Function `strconv.ParseInt(s, 10, 0)` on a 64-bit platform. -/
def ParseInt (s : Str) : Int × Option NumError :=
  match s with
  | [] => (0, some NumError.ErrSyntax)
  | s0 :: t =>
    let neg := decide (s0 = 45)
    let s1 := if s0 = 43 ∨ s0 = 45 then t else s0 :: t
    match ParseUint s1 with
    | (_, some NumError.ErrSyntax) => (0, some NumError.ErrSyntax)
    | (un, _) =>
      if !neg ∧ un ≥ 2 ^ 63 then (2 ^ 63 - 1, some NumError.ErrRange)
      else if neg ∧ un > 2 ^ 63 then (-(2 ^ 63), some NumError.ErrRange)
      else if neg then (-(un : Int), none)
      else ((un : Int), none)

/-- Function `strconv.Atoi` on a 64-bit platform: the value and the error. -/
def Atoi (s : Str) : Int × Option NumError :=
  if 0 < s.length ∧ s.length < 19 then
    match s with
    | [] => (0, some NumError.ErrSyntax)
    | s0 :: t =>
      let s1 := if s0 = 45 ∨ s0 = 43 then t else s0 :: t
      if s1.length < 1 then (0, some NumError.ErrSyntax)
      else
        match atoiFast s1 0 with
        | none => (0, some NumError.ErrSyntax)
        | some n => if s0 = 45 then (-(n : Int), none) else ((n : Int), none)
  else ParseInt s

/-! ## `bufio.Reader` over the connection -/

/-- The default buffer size of `bufio.NewReader`. -/
def bufSize : Nat := 4096

/-- A `bufio.Reader`: the buffered bytes not yet consumed, and the chunks the
connection will still deliver. -/
structure Reader where
  buf : List Nat
  rd : List (List Nat)
  deriving DecidableEq, Repr

/-- Function `bufio.NewReader`. -/
def NewReader (incoming : List (List Nat)) : Reader := { buf := [], rd := incoming }

/-- One `Read` of the connection into a slice of `n > 0` bytes: at most `n`
bytes of the next chunk, or `none` at end of stream.  A read of a TCP
connection never returns zero bytes without an error, so empty chunks carry
no data and are passed over. -/
def connRead (n : Nat) : List (List Nat) → Option (List Nat) × List (List Nat)
  | [] => (none, [])
  | [] :: cs => connRead n cs
  | (x :: xs) :: cs =>
    if (x :: xs).length ≤ n then (some (x :: xs), cs)
    else (some ((x :: xs).take n), (x :: xs).drop n :: cs)

/-- The loop of `Reader.ReadString` (through `collectFragments` and
`ReadSlice`): search the buffer for the delimiter; when it is absent, set a
full buffer aside as a fragment, otherwise fill the buffer with one read, and
stop at end of stream with what has been read. -/
def ReadStringAux (delim : Nat) : Nat → Reader → Str → Str × Reader
  | 0, b, acc => (acc, b)
  | fuel + 1, b, acc =>
    match b.buf.span (fun c => c != delim) with
    | (pre, d :: post) => (acc ++ pre ++ [d], { b with buf := post })
    | (_, []) =>
      if b.buf.length ≥ bufSize then
        ReadStringAux delim fuel { b with buf := [] } (acc ++ b.buf)
      else
        match connRead (bufSize - b.buf.length) b.rd with
        | (none, rd) => (acc ++ b.buf, { buf := [], rd := rd })
        | (some d, rd) => ReadStringAux delim fuel { buf := b.buf ++ d, rd := rd } acc

/-- Method `Reader.ReadString`, its error dropped as the caller drops it.  The
loop runs at most twice per byte still to come, plus two. -/
def Reader.ReadString (b : Reader) (delim : Nat) : Str × Reader :=
  ReadStringAux delim (2 * b.rd.flatten.length + 2) b []

/-- Method `Reader.Read` into a slice of `n` bytes: the bytes read and the
reader afterwards.  It copies what is buffered; with an empty buffer it does
one read of the connection. -/
def Reader.Read (b : Reader) (n : Nat) : List Nat × Reader :=
  if n = 0 then ([], b)
  else if b.buf = [] then
    if n ≥ bufSize then
      match connRead n b.rd with
      | (none, rd) => ([], { buf := [], rd := rd })
      | (some d, rd) => (d, { buf := [], rd := rd })
    else
      match connRead bufSize b.rd with
      | (none, rd) => ([], { buf := [], rd := rd })
      | (some d, rd) => (d.take n, { buf := d.drop n, rd := rd })
  else (b.buf.take n, { b with buf := b.buf.drop n })

/-! ## `getNextInvocation` -/

/-- The bound `maxAlloc` of the Go runtime on a 64-bit platform: the size of
the address space the heap can use. -/
def maxAlloc : Nat := 2 ^ 48

/-- How `make([]byte, n)` ends. -/
inductive Allocation where
  | allocated
  | lenOutOfRange
  | outOfMemory
  deriving DecidableEq, Repr

/-- The built-in `make([]byte, n)` (function `makeslice` of the Go runtime,
then `mallocgc`), with `memory` the number of bytes the runtime can still
obtain for the slice.  A negative length or one above `maxAlloc` is the
run-time panic "makeslice: len out of range"; a length the memory cannot hold,
and always `maxAlloc` itself, is the fatal error "out of memory". -/
def makeslice (memory : Nat) (n : Int) : Allocation :=
  if n < 0 ∨ n > maxAlloc then Allocation.lenOutOfRange
  else if n ≥ maxAlloc ∨ n > memory then Allocation.outOfMemory
  else Allocation.allocated

/-- How a call of `getNextInvocation` ends: it returns, or the process dies
inside it, of a run-time panic or of the fatal error "out of memory". -/
inductive Fetched where
  | returned (requestID : Str) (body : List Nat) (err : Option Str)
  | panicked
  | outOfMemory
  deriving DecidableEq, Repr

/-- What `getNextInvocation` did: the bytes written to its connection (`none`
when no connection was opened) and how it ended (`none` while the header loop
is still running). -/
structure FetchResult where
  written : Option Str
  outcome : Option Fetched
  deriving DecidableEq, Repr

/-- The bytes a reader has still to deliver: its buffer, then the chunks to come. -/
def Reader.rest (b : Reader) : List Nat := b.buf ++ b.rd.flatten

/-- The state the header loop leaves: the two variables and the reader, or a
run-time panic of a slice expression. -/
inductive Headers where
  | done (requestID : Str) (contentLength : Int) (reader : Reader)
  | panicked
  deriving DecidableEq, Repr

/-- The header loop of `getNextInvocation`; `none` when it is still running
after `fuel` lines. -/
def headerLoop : Nat → Reader → Str → Int → Option Headers
  | 0, _, _, _ => none
  | fuel + 1, reader, requestID, contentLength =>
    let (line, reader) := reader.ReadString 10
    if HasPrefix line (lit "Lambda-Runtime-Aws-Request-Id:") ∧ line.length < 31 then
      some Headers.panicked
    else
      let requestID :=
        if HasPrefix line (lit "Lambda-Runtime-Aws-Request-Id:") then TrimSpace (line.drop 31)
        else requestID
      if HasPrefix line (lit "Content-Length:") ∧ line.length < 16 then
        some Headers.panicked
      else
        let contentLength :=
          if HasPrefix line (lit "Content-Length:") then (Atoi (TrimSpace (line.drop 16))).1
          else contentLength
        if line = lit "\r\n" then some (Headers.done requestID contentLength reader)
        else headerLoop fuel reader requestID contentLength

/-- Method `getNextInvocation`, its header loop run for at most `fuel` lines,
in a process that can still obtain `memory` bytes for the body. -/
def getNextInvocation (fuel memory : Nat) (c : runtimeAPIClient) (net : Dial) : FetchResult :=
  match net with
  | Dial.refused err => { written := none, outcome := some (Fetched.returned [] [] (some err)) }
  | Dial.connected incoming =>
    let written := Fprintf (lit "GET /2018-06-01/runtime/invocation/next HTTP/1.1\r\nHost: %s\r\n\r\n")
      [Arg.str c.host]
    match headerLoop fuel (NewReader incoming) [] 0 with
    | none => { written := some written, outcome := none }
    | some Headers.panicked => { written := some written, outcome := some Fetched.panicked }
    | some (Headers.done requestID contentLength reader) =>
      match makeslice memory contentLength with
      | Allocation.lenOutOfRange => { written := some written, outcome := some Fetched.panicked }
      | Allocation.outOfMemory => { written := some written, outcome := some Fetched.outOfMemory }
      | Allocation.allocated =>
        let data := (reader.Read contentLength.toNat).1
        let body := data ++ List.replicate (contentLength.toNat - data.length) 0
        { written := some written, outcome := some (Fetched.returned requestID body none) }

/-! ## The handler and the loop of `main` -/

/-- The result of `cmd.Output()`: the captured standard output, and the text
of the error when the command failed. -/
structure HandlerResult where
  output : List Nat
  err : Option Str
  deriving DecidableEq, Repr

/-- Function `executeShellHandler`: `bash -c "source <file> && <func>"` with the
event on standard input; `bash` is the behaviour of the shell. -/
def executeShellHandler (bash : Str → List Nat → HandlerResult)
    (handlerFile handlerFunc : Str) (eventData : List Nat) : HandlerResult :=
  bash (lit "source " ++ handlerFile ++ lit " && " ++ handlerFunc) eventData

/-- What the outside world does during one pass of the loop: the dial of the
fetch, the memory the process can still obtain, the shell, and the dial of the
submission. -/
structure World where
  fetch : Dial
  memory : Nat
  bash : Str → List Nat → HandlerResult
  submit : Dial

/-- The calls the loop makes, each with its arguments and its result. -/
inductive Event where
  | getNextInvocation (result : FetchResult)
  | executeShellHandler (handlerFile handlerFunc : Str) (eventData : List Nat)
      (result : HandlerResult)
  | sendResponse (requestID : Str) (response : List Nat) (result : SubmitResult)
  | sendError (requestID errorMsg : Str) (result : SubmitResult)
  deriving DecidableEq, Repr

/-- The process after a pass of the loop: about to fetch again, dead of a
panic or of a fatal error, or still inside a fetch that has not returned. -/
inductive Status where
  | running
  | crashed
  | blocked
  deriving DecidableEq, Repr

/-- One pass of the body of the `for` loop of `main`. -/
def iteration (fuel : Nat) (client : runtimeAPIClient) (handlerFile handlerFunc : Str)
    (w : World) : List Event × Status :=
  let fetched := getNextInvocation fuel w.memory client w.fetch
  match fetched.outcome with
  | none => ([Event.getNextInvocation fetched], Status.blocked)
  | some Fetched.panicked => ([Event.getNextInvocation fetched], Status.crashed)
  | some Fetched.outOfMemory => ([Event.getNextInvocation fetched], Status.crashed)
  | some (Fetched.returned _ _ (some _)) => ([Event.getNextInvocation fetched], Status.running)
  | some (Fetched.returned requestID eventData none) =>
    let h := executeShellHandler w.bash handlerFile handlerFunc eventData
    match h.err with
    | some msg =>
      ([Event.getNextInvocation fetched,
        Event.executeShellHandler handlerFile handlerFunc eventData h,
        Event.sendError requestID msg (sendError client w.submit requestID msg)],
       Status.running)
    | none =>
      ([Event.getNextInvocation fetched,
        Event.executeShellHandler handlerFile handlerFunc eventData h,
        Event.sendResponse requestID h.output (sendResponse client w.submit requestID h.output)],
       Status.running)

/-- The `for` loop of `main`, run against the given worlds, one per pass; it
stops early only when the process has crashed or is blocked. -/
def mainLoop (fuel : Nat) (client : runtimeAPIClient) (handlerFile handlerFunc : Str) :
    List World → List Event × Status
  | [] => ([], Status.running)
  | w :: ws =>
    match iteration fuel client handlerFile handlerFunc w with
    | (events, Status.running) =>
      let (later, status) := mainLoop fuel client handlerFile handlerFunc ws
      (events ++ later, status)
    | (events, status) => (events, status)

/-- The event is a submission of an outcome. -/
def Event.isSubmission : Event → Bool
  | Event.sendResponse _ _ _ => true
  | Event.sendError _ _ _ => true
  | _ => false

/-! ## Reference readings used to state the properties -/

/-- The number a run of decimal digits denotes, read from the left with
`n` the value so far; `none` when a byte is not a digit. -/
def decimalValueFrom : Str → Nat → Option Nat
  | [], n => some n
  | c :: t, n => if 48 ≤ c ∧ c ≤ 57 then decimalValueFrom t (n * 10 + (c - 48)) else none

/-- The number a non-empty run of decimal digits denotes. -/
def decimalValue (s : Str) : Option Nat :=
  if s = [] then none else decimalValueFrom s 0

namespace JSON

/-- Insignificant whitespace of RFC 8259 is skipped. -/
def skipWs : Str → Str
  | [] => []
  | c :: t => if c = 32 ∨ c = 9 ∨ c = 10 ∨ c = 13 then skipWs t else c :: t

/-- The value of a hexadecimal digit. -/
def hexDigit (c : Nat) : Option Nat :=
  if 48 ≤ c ∧ c ≤ 57 then some (c - 48)
  else if 97 ≤ c ∧ c ≤ 102 then some (c - 87)
  else if 65 ≤ c ∧ c ≤ 70 then some (c - 55)
  else none

/-- Four hexadecimal digits, as after a `\u` escape. -/
def hex4 : Str → Option (Nat × Str)
  | a :: b :: c :: d :: t =>
    match hexDigit a, hexDigit b, hexDigit c, hexDigit d with
    | some x, some y, some z, some w => some (x * 4096 + y * 256 + z * 16 + w, t)
    | _, _, _, _ => none
  | _ => none

/-- The characters of a JSON string after its opening quote, decoded, up to
the closing quote, and the text after it.  A control character, an unknown
escape or a missing closing quote is an error. -/
def stringBody : Nat → Str → Option (Str × Str)
  | 0, _ => none
  | _ + 1, [] => none
  | fuel + 1, c :: t =>
    if c = 34 then some ([], t)
    else if c = 92 then
      match t with
      | [] => none
      | e :: t1 =>
        if e = 117 then
          match hex4 t1 with
          | none => none
          | some (u, t2) =>
            if 0xD800 ≤ u ∧ u < 0xDC00 then
              match t2 with
              | 92 :: 117 :: t3 =>
                match hex4 t3 with
                | none => none
                | some (v, t4) =>
                  if 0xDC00 ≤ v ∧ v < 0xE000 then
                    (stringBody fuel t4).map (fun r =>
                      (encodeRune (0x10000 + (u - 0xD800) * 1024 + (v - 0xDC00)) ++ r.1, r.2))
                  else (stringBody fuel t2).map (fun r => (encodeRune 0xFFFD ++ r.1, r.2))
              | _ => (stringBody fuel t2).map (fun r => (encodeRune 0xFFFD ++ r.1, r.2))
            else if 0xDC00 ≤ u ∧ u < 0xE000 then
              (stringBody fuel t2).map (fun r => (encodeRune 0xFFFD ++ r.1, r.2))
            else (stringBody fuel t2).map (fun r => (encodeRune u ++ r.1, r.2))
        else
          let plain : Option Nat :=
            if e = 34 then some 34 else if e = 92 then some 92 else if e = 47 then some 47
            else if e = 98 then some 8 else if e = 102 then some 12 else if e = 110 then some 10
            else if e = 114 then some 13 else if e = 116 then some 9 else none
          match plain with
          | none => none
          | some x => (stringBody fuel t1).map (fun r => (x :: r.1, r.2))
    else if c < 32 then none
    else (stringBody fuel t).map (fun r => (c :: r.1, r.2))

/-- A JSON string: its decoded value and the text after it. -/
def string (s : Str) : Option (Str × Str) :=
  match s with
  | 34 :: t => stringBody (t.length + 1) t
  | _ => none

/-- One member `"name" : "value"` of an object. -/
def member (s : Str) : Option ((Str × Str) × Str) :=
  match string s with
  | none => none
  | some (name, t) =>
    match skipWs t with
    | 58 :: t1 =>
      match string (skipWs t1) with
      | none => none
      | some (value, t2) => some ((name, value), t2)
    | _ => none

/-- The members after the first one, up to the closing brace. -/
def moreMembers : Nat → Str → Option (List (Str × Str) × Str)
  | 0, _ => none
  | fuel + 1, s =>
    match skipWs s with
    | 125 :: t => some ([], t)
    | 44 :: t =>
      match member (skipWs t) with
      | none => none
      | some (m, t1) => (moreMembers fuel t1).map (fun r => (m :: r.1, r.2))
    | _ => none

/-- Reference reading of a JSON text (RFC 8259) that is one object all of
whose values are strings: its members in order, `none` when the text is not
such an object. -/
def parseStringObject (s : Str) : Option (List (Str × Str)) :=
  match skipWs s with
  | 123 :: t =>
    match skipWs t with
    | 125 :: t1 => if skipWs t1 = [] then some [] else none
    | t0 =>
      match member t0 with
      | none => none
      | some (m, t1) =>
        match moreMembers (t1.length + 1) t1 with
        | none => none
        | some (ms, t2) => if skipWs t2 = [] then some (m :: ms) else none
  | _ => none

end JSON

/-! ## Handler identity in `main` -/

/-- Function `strings.Split(s, sep)` for a separator of one byte: the pieces
of `s` between the occurrences of the separator. -/
def Split : Str → Nat → List Str
  | [], _ => [[]]
  | c :: t, sep =>
    if c = sep then [] :: Split t sep
    else
      match Split t sep with
      | piece :: pieces => (c :: piece) :: pieces
      | [] => [[c]]

/-- The start of `main`: the pair `(handlerFile, handlerFunc)` resolved from
the value of `_HANDLER` (empty when the variable is unset). -/
def resolveHandler (handlerEnv : Str) : Str × Str :=
  let handler := if handlerEnv = [] then lit "handler.run" else handlerEnv
  let parts := Split handler 46
  let parts := if parts.length < 2 then [lit "handler", lit "run"] else parts
  (parts.getD 0 [] ++ lit ".sh", parts.getD 1 [])

/-- Function `main`: the configuration is read, then the loop runs against
the given worlds. -/
def main (fuel : Nat) (runtimeAPI handlerEnv : Str) (worlds : List World) :
    List Event × Status :=
  mainLoop fuel (newRuntimeAPIClient runtimeAPI) (resolveHandler handlerEnv).1
    (resolveHandler handlerEnv).2 worlds

/-! ## Reference readings of a header block -/

/-- The last of the header lines that starts with the given name, if any. -/
def lastHeader (name : Str) (hdrs : List Str) : Option Str :=
  (hdrs.filter (fun l => HasPrefix l name)).getLast?

/-- The request id a header block gives: the trimmed text from byte 31 on of
the last line starting with `Lambda-Runtime-Aws-Request-Id:`, empty without one. -/
def requestIDOf (hdrs : List Str) : Str :=
  match lastHeader (lit "Lambda-Runtime-Aws-Request-Id:") hdrs with
  | none => []
  | some l => TrimSpace (l.drop 31)

/-- The length a header block gives: what `Atoi` reads in the trimmed text
from byte 16 on of the last line starting with `Content-Length:`, zero
without one. -/
def contentLengthOf (hdrs : List Str) : Int :=
  match lastHeader (lit "Content-Length:") hdrs with
  | none => 0
  | some l => (Atoi (TrimSpace (l.drop 16))).1

/-- The part of `DecodeRuneInString` after the first byte `s0` of a sequence
of `sz` bytes whose second byte must lie between `lo` and `hi`. -/
def decodeTail (sz lo hi s0 : Nat) (t : Str) : Nat × Nat :=
  if t.length + 1 < sz then (RuneError, 1)
  else
    match t with
    | [] => (RuneError, 1)
    | s1 :: t1 =>
      if s1 < lo ∨ hi < s1 then (RuneError, 1)
      else if sz ≤ 2 then (s0 % 32 * 64 + s1 % 64, 2)
      else
        match t1 with
        | [] => (RuneError, 1)
        | s2 :: t2 =>
          if s2 < 0x80 ∨ 0xBF < s2 then (RuneError, 1)
          else if sz ≤ 3 then (s0 % 16 * 4096 + s1 % 64 * 64 + s2 % 64, 3)
          else
            match t2 with
            | [] => (RuneError, 1)
            | s3 :: _ =>
              if s3 < 0x80 ∨ 0xBF < s3 then (RuneError, 1)
              else (s0 % 8 * 262144 + s1 % 64 * 4096 + s2 % 64 * 64 + s3 % 64, 4)

/-- All of a body of `n` bytes is available to the one `Read` that follows
the header loop: the loop ends and that read delivers `n` bytes. -/
def bodyAvailable (fuel : Nat) (chunks : List (List Nat)) (n : Nat) : Prop :=
  ∃ requestID contentLength reader,
    headerLoop fuel (NewReader chunks) [] 0 = some (Headers.done requestID contentLength reader)
    ∧ (reader.Read n).1.length = n

/-- What one line does to the two variables of the header loop. -/
def headerStep (state : Str × Int) (line : Str) : Str × Int :=
  (if HasPrefix line (lit "Lambda-Runtime-Aws-Request-Id:") then TrimSpace (line.drop 31)
    else state.1,
   if HasPrefix line (lit "Content-Length:") then (Atoi (TrimSpace (line.drop 16))).1
    else state.2)

/-- A complete line of the stream: it ends in its only line feed. -/
def IsLine (l : Str) : Prop := ∃ pre, l = pre ++ [10] ∧ 10 ∉ pre

/-! ## Sample inputs -/

/-- A client for a control plane on the local host. -/
def sampleClient : runtimeAPIClient := newRuntimeAPIClient (lit "127.0.0.1:9001")

/-- The memory of the sample process: 128 MiB. -/
def sampleMemory : Nat := 2 ^ 27

/-- A fetch response for request `abc-123` with the event `{"n":5}`, delivered in one read. -/
def sampleInvocation : List (List Nat) :=
  [lit "HTTP/1.1 200 OK\r\nLambda-Runtime-Aws-Request-Id: abc-123\r\nContent-Length: 7\r\n\r\n\x7b\"n\":5\x7d"]

/-- A fetch response for request `err-1` with the event `{}`. -/
def sampleInvocationErr : List (List Nat) :=
  [lit "HTTP/1.1 200 OK\r\nLambda-Runtime-Aws-Request-Id: err-1\r\nContent-Length: 2\r\n\r\n\x7b\x7d"]

/-- A world whose handler squares: it answers `{"n":25}`. -/
def sampleWorldOk : World :=
  { fetch := Dial.connected sampleInvocation
    memory := sampleMemory
    bash := fun _ _ => { output := lit "\x7b\"n\":25\x7d", err := none }
    submit := Dial.connected [] }

/-- A world whose handler fails with the error text `bad input`. -/
def sampleWorldFail : World :=
  { fetch := Dial.connected sampleInvocationErr
    memory := sampleMemory
    bash := fun _ _ => { output := [], err := some (lit "bad input") }
    submit := Dial.connected [] }

/-- A world in which the control plane refuses the connection of the fetch. -/
def sampleWorldRefused : World :=
  { fetch := Dial.refused (lit "dial tcp 127.0.0.1:9001: connect: connection refused")
    memory := sampleMemory
    bash := fun _ _ => { output := [], err := none }
    submit := Dial.connected [] }

/-- A fetch response without the request-id header. -/
def sampleNoRequestId : List (List Nat) :=
  [lit "HTTP/1.1 200 OK\r\nContent-Type: application/json\r\nContent-Length: 2\r\n\r\n\x7b\x7d"]

/-- The header block of `sampleNoRequestId`, line by line. -/
def sampleNoRequestIdHeaders : List Str :=
  [lit "HTTP/1.1 200 OK\r\n", lit "Content-Type: application/json\r\n",
    lit "Content-Length: 2\r\n"]

/-- The head of a fetch response that declares a body of 100 bytes. -/
def sampleHead100 : Str :=
  lit "HTTP/1.1 200 OK\r\nLambda-Runtime-Aws-Request-Id: abc-123\r\nContent-Length: 100\r\n\r\n"

/-- The response declaring 100 bytes, cut by the peer after 40 body bytes. -/
def sampleTruncated : List (List Nat) := [sampleHead100 ++ List.replicate 40 120]

/-- A complete response of 100 body bytes: 40 bytes `x`, then 60 zero bytes. -/
def sampleComplete : List (List Nat) :=
  [sampleHead100 ++ List.replicate 40 120 ++ List.replicate 60 0]

/-- A fetch response without a `Content-Length` header, with bytes after the blank line. -/
def sampleNoLength : List (List Nat) :=
  [lit "HTTP/1.1 200 OK\r\nLambda-Runtime-Aws-Request-Id: abc-123\r\n\r\nbytes after the blank line"]

/-- A fetch response that declares a negative length. -/
def sampleNegativeLength : List (List Nat) :=
  [lit "HTTP/1.1 200 OK\r\nLambda-Runtime-Aws-Request-Id: abc-123\r\nContent-Length: -1\r\n\r\n"]

/-- A fetch response cut by the peer right after the name of a header. -/
def sampleBareName : List (List Nat) :=
  [lit "HTTP/1.1 200 OK\r\nContent-Length:"]

/-- A world whose control plane answers the fetch with a negative length. -/
def sampleWorldNegativeLength : World :=
  { fetch := Dial.connected sampleNegativeLength
    memory := sampleMemory
    bash := fun _ _ => { output := [], err := none }
    submit := Dial.connected [] }

/-- A fetch response with a body of 4000 bytes `x`, 4081 bytes in all,
delivered in one piece. -/
def sampleLarge : List (List Nat) :=
  [lit "HTTP/1.1 200 OK\r\nLambda-Runtime-Aws-Request-Id: abc-123\r\nContent-Length: 4000\r\n\r\n"
    ++ List.replicate 4000 120]

/-- The same response with one more header line after the status line, 4109
bytes in all, delivered in one piece. -/
def sampleLargeExtra : List (List Nat) :=
  [lit "HTTP/1.1 200 OK\r\nX-Extra-Header: 0123456789\r\nLambda-Runtime-Aws-Request-Id: abc-123\r\nContent-Length: 4000\r\n\r\n"
    ++ List.replicate 4000 120]

/-- A fetch response that declares 10 bytes and is cut after 4. -/
def sampleShort : List (List Nat) :=
  [lit "HTTP/1.1 200 OK\r\nLambda-Runtime-Aws-Request-Id: abc-123\r\nContent-Length: 10\r\n\r\nabcd"]

/-- The header block of `sampleShort`, line by line. -/
def sampleShortHeaders : List Str :=
  [lit "HTTP/1.1 200 OK\r\n", lit "Lambda-Runtime-Aws-Request-Id: abc-123\r\n",
    lit "Content-Length: 10\r\n"]

/-- A fetch response cut by the peer before the blank line. -/
def sampleNoBlankLine : List (List Nat) :=
  [lit "HTTP/1.1 200 OK\r\nLambda-Runtime-Aws-Request-Id: abc-123\r\n"]

/-- A world whose control plane closes the connection of the fetch before the
blank line. -/
def sampleWorldNoBlankLine (memory : Nat) : World :=
  { fetch := Dial.connected sampleNoBlankLine
    memory := memory
    bash := fun _ _ => { output := [], err := none }
    submit := Dial.connected [] }

/-- A fetch response whose two headers have no space after the colon, the
request id given twice. -/
def sampleNoSpace : List (List Nat) :=
  [lit "HTTP/1.1 200 OK\r\nLambda-Runtime-Aws-Request-Id: first\r\nLambda-Runtime-Aws-Request-Id:abc\r\nContent-Length:5\r\n\r\nhello"]

/-! ## What the three operations write -/

theorem fmtInt_natCast (n : Nat) : fmtInt (n : Int) = fmtUint n := by
  simp [fmtInt]

theorem sendResponse_written (c : runtimeAPIClient) (incoming : List (List Nat))
    (requestID : Str) (response : List Nat) :
    (sendResponse c (Dial.connected incoming) requestID response).written =
      some (lit "POST /2018-06-01/runtime/invocation/" ++ requestID
        ++ lit "/response HTTP/1.1\r\nHost: " ++ c.host
        ++ lit "\r\nContent-Length: " ++ fmtUint response.length ++ lit "\r\n\r\n" ++ response) := by
  have raw : (sendResponse c (Dial.connected incoming) requestID response).written =
      some (lit "POST /2018-06-01/runtime/invocation/" ++ (requestID
        ++ (lit "/response HTTP/1.1\r\nHost: " ++ (c.host
        ++ (lit "\r\nContent-Length: " ++ (fmtInt response.length
        ++ (lit "\r\n\r\n" ++ (response ++ [])))))))) := rfl
  rw [raw, fmtInt_natCast]
  simp only [List.append_assoc, List.append_nil]

theorem sendError_written (c : runtimeAPIClient) (incoming : List (List Nat))
    (requestID errorMsg : Str) :
    (sendError c (Dial.connected incoming) requestID errorMsg).written =
      some (lit "POST /2018-06-01/runtime/invocation/" ++ requestID
        ++ lit "/error HTTP/1.1\r\nHost: " ++ c.host
        ++ lit "\r\nContent-Length: " ++ fmtUint (errorPayload errorMsg).length
        ++ lit "\r\n\r\n" ++ errorPayload errorMsg) := by
  have raw : (sendError c (Dial.connected incoming) requestID errorMsg).written =
      some (lit "POST /2018-06-01/runtime/invocation/" ++ (requestID
        ++ (lit "/error HTTP/1.1\r\nHost: " ++ (c.host
        ++ (lit "\r\nContent-Length: " ++ (fmtInt (errorPayload errorMsg).length
        ++ (lit "\r\n\r\n" ++ (errorPayload errorMsg ++ [])))))))) := rfl
  rw [raw, fmtInt_natCast]
  simp only [List.append_assoc, List.append_nil]

theorem getNextInvocation_written (fuel memory : Nat) (c : runtimeAPIClient)
    (incoming : List (List Nat)) :
    (getNextInvocation fuel memory c (Dial.connected incoming)).written =
      some (lit "GET /2018-06-01/runtime/invocation/next HTTP/1.1\r\nHost: " ++ c.host
        ++ lit "\r\n\r\n") := by
  have raw : Fprintf (lit "GET /2018-06-01/runtime/invocation/next HTTP/1.1\r\nHost: %s\r\n\r\n")
      [Arg.str c.host] =
      lit "GET /2018-06-01/runtime/invocation/next HTTP/1.1\r\nHost: " ++ (c.host
        ++ lit "\r\n\r\n") := rfl
  simp only [getNextInvocation, raw]
  split
  · rfl
  · rfl
  · split <;> simp

/-! ## Decimal numbers: formatting and reading back -/

theorem fmtDigits_fuel (f1 : Nat) : ∀ (f2 u : Nat) (acc : List Nat), u < f1 → u < f2 →
    fmtDigits f1 u acc = fmtDigits f2 u acc := by
  induction f1 with
  | zero => intro f2 u acc h; omega
  | succ k ih =>
    intro f2 u acc h1 h2
    cases f2 with
    | zero => omega
    | succ m =>
      simp only [fmtDigits]
      split
      · rfl
      · exact ih m (u / 10) _ (by omega) (by omega)

theorem fmtDigits_acc (f : Nat) : ∀ (u : Nat) (acc more : List Nat),
    fmtDigits f u (acc ++ more) = fmtDigits f u acc ++ more := by
  induction f with
  | zero => intro u acc more; rfl
  | succ k ih =>
    intro u acc more
    simp only [fmtDigits]
    split
    · rfl
    · rw [← ih]; rfl

theorem fmtUint_small (n : Nat) (h : n < 10) : fmtUint n = [48 + n] := by
  simp [fmtUint, fmtDigits, h]

theorem fmtUint_snoc (n : Nat) (h : 10 ≤ n) :
    fmtUint n = fmtUint (n / 10) ++ [48 + n % 10] := by
  have h1 : fmtUint n = fmtDigits n (n / 10) [48 + n % 10] := by
    simp [fmtUint, fmtDigits, Nat.not_lt.mpr h]
  rw [h1, fmtUint, ← fmtDigits_fuel n (n / 10 + 1) (n / 10) [] (by omega) (by omega)]
  exact fmtDigits_acc n (n / 10) [] [48 + n % 10]

theorem fmtUint_digits : ∀ (n : Nat), ∀ c ∈ fmtUint n, 48 ≤ c ∧ c ≤ 57 := by
  intro n
  induction n using Nat.strong_induction_on with
  | _ n ih =>
    intro c hc
    by_cases h : n < 10
    · rw [fmtUint_small n h] at hc
      simp at hc
      omega
    · rw [fmtUint_snoc n (by omega)] at hc
      rcases List.mem_append.mp hc with hc | hc
      · exact ih (n / 10) (by omega) c hc
      · simp at hc
        omega

theorem fmtUint_ne_nil (n : Nat) : fmtUint n ≠ [] := by
  by_cases h : n < 10
  · rw [fmtUint_small n h]; simp
  · rw [fmtUint_snoc n (by omega)]; simp

theorem decimalValueFrom_append (l more : Str) : ∀ n : Nat,
    decimalValueFrom (l ++ more) n = (decimalValueFrom l n).bind (decimalValueFrom more) := by
  induction l with
  | nil => intro n; rfl
  | cons c t ih =>
    intro n
    simp only [List.cons_append, decimalValueFrom]
    split
    · exact ih _
    · rfl

theorem decimalValueFrom_fmtUint (n : Nat) : decimalValueFrom (fmtUint n) 0 = some n := by
  induction n using Nat.strong_induction_on with
  | _ n ih =>
    by_cases h : n < 10
    · rw [fmtUint_small n h]
      simp [decimalValueFrom]
      omega
    · rw [fmtUint_snoc n (by omega), decimalValueFrom_append, ih (n / 10) (by omega)]
      have : n % 10 < 10 := Nat.mod_lt _ (by omega)
      simp only [Option.some_bind, decimalValueFrom]
      rw [if_pos (by omega)]
      congr 1
      omega

theorem decimalValue_fmtUint (n : Nat) : decimalValue (fmtUint n) = some n := by
  simp [decimalValue, fmtUint_ne_nil, decimalValueFrom_fmtUint]

theorem atoiFast_append (l more : Str) : ∀ n : Nat,
    atoiFast (l ++ more) n = (atoiFast l n).bind (atoiFast more) := by
  induction l with
  | nil => intro n; rfl
  | cons c t ih =>
    intro n
    simp only [List.cons_append, atoiFast]
    split
    · rfl
    · exact ih _

theorem atoiFast_fmtUint (n : Nat) : atoiFast (fmtUint n) 0 = some n := by
  induction n using Nat.strong_induction_on with
  | _ n ih =>
    by_cases h : n < 10
    · rw [fmtUint_small n h]
      have e : (48 + n + 256 - 48) % 256 = n := by omega
      simp [atoiFast, e]
      omega
    · rw [fmtUint_snoc n (by omega), atoiFast_append, ih (n / 10) (by omega)]
      have : n % 10 < 10 := Nat.mod_lt _ (by omega)
      have e : (48 + n % 10 + 256 - 48) % 256 = n % 10 := by omega
      simp only [Option.some_bind, atoiFast, e]
      rw [if_neg (by omega)]
      congr 1
      omega

theorem parseUintLoop_append (l more : Str) : ∀ n : Nat,
    parseUintLoop (l ++ more) n =
      match parseUintLoop l n with
      | (m, none) => parseUintLoop more m
      | r => r := by
  induction l with
  | nil => intro n; rfl
  | cons c t ih =>
    intro n
    simp only [List.cons_append, parseUintLoop]
    split
    · split
      · rfl
      · split
        · rfl
        · exact ih _
    · rfl

theorem parseUintLoop_fmtUint (n : Nat) (hn : n < 2 ^ 64) :
    parseUintLoop (fmtUint n) 0 = (n, none) := by
  induction n using Nat.strong_induction_on with
  | _ n ih =>
    by_cases h : n < 10
    · rw [fmtUint_small n h]
      simp only [parseUintLoop]
      rw [if_pos (by omega), if_neg (by omega), if_neg (by omega)]
      congr 1
      omega
    · rw [fmtUint_snoc n (by omega), parseUintLoop_append, ih (n / 10) (by omega) (by omega)]
      have : n % 10 < 10 := Nat.mod_lt _ (by omega)
      simp only [parseUintLoop]
      rw [if_pos (by omega), if_neg (by omega), if_neg (by omega)]
      congr 1
      omega

theorem Atoi_fmtUint (n : Nat) (hn : n < 2 ^ 63) : Atoi (fmtUint n) = ((n : Int), none) := by
  obtain ⟨d, t, hdt⟩ := List.exists_cons_of_ne_nil (fmtUint_ne_nil n)
  have hd : 48 ≤ d ∧ d ≤ 57 := fmtUint_digits n d (by rw [hdt]; simp)
  have h45 : d ≠ 45 := by omega
  have h43 : d ≠ 43 := by omega
  have hfast := atoiFast_fmtUint n
  have hslow := parseUintLoop_fmtUint n (by omega)
  rw [hdt] at hfast hslow
  rw [hdt]
  unfold Atoi
  split
  · simp [h45, h43, hfast]
  · simp [ParseInt, ParseUint, h45, h43, hslow]
    omega

/-! ## Trimming -/

theorem TrimSpace_crlf (a z : Nat) (t u : Str) (h : a :: t = u ++ [z])
    (ha : a < 128) (ha2 : asciiSpace a = false) (hz : z < 128) (hz2 : asciiSpace z = false) :
    TrimSpace (a :: t ++ [13, 10]) = a :: t := by
  have hrev : (a :: (t ++ [13, 10])).reverse = 10 :: 13 :: z :: u.reverse := by
    have : a :: (t ++ [13, 10]) = (u ++ [z]) ++ [13, 10] := by rw [← h]; rfl
    rw [this]
    simp
  have e1 : TrimSpace (a :: t ++ [13, 10]) = trimSpaceStop (a :: (t ++ [13, 10])).reverse := by
    simp only [List.cons_append, TrimSpace]
    rw [if_neg (by omega), if_neg (by simp [ha2])]
    rfl
  rw [e1, hrev]
  have e2 : trimSpaceStop (10 :: 13 :: z :: u.reverse) = (z :: u.reverse).reverse := by
    simp only [trimSpaceStop]
    rw [if_neg (by omega), if_pos (by decide), if_neg (by omega), if_pos (by decide),
      if_neg (by omega), if_neg (by simp [hz2])]
  rw [e2, h]
  simp

/-! ## Reading lines from the connection -/

theorem first_delim_unique (d : Nat) : ∀ (p1 p2 r1 r2 : Str), d ∉ p1 → d ∉ p2 →
    p1 ++ d :: r1 = p2 ++ d :: r2 → p1 = p2 ∧ r1 = r2 := by
  intro p1
  induction p1 with
  | nil =>
    intro p2 r1 r2 _ h2 h
    cases p2 with
    | nil => simpa using h
    | cons b p2 =>
      simp only [List.nil_append, List.cons_append, List.cons.injEq] at h
      exact absurd (by rw [h.1]; simp) h2
  | cons a p1 ih =>
    intro p2 r1 r2 h1 h2 h
    cases p2 with
    | nil =>
      simp only [List.nil_append, List.cons_append, List.cons.injEq] at h
      exact absurd (by rw [← h.1]; simp) h1
    | cons b p2 =>
      simp only [List.cons_append, List.cons.injEq] at h
      have := ih p2 r1 r2 (fun hm => h1 (List.mem_cons_of_mem _ hm))
        (fun hm => h2 (List.mem_cons_of_mem _ hm)) h.2
      exact ⟨by rw [h.1, this.1], this.2⟩

theorem split_after_clean (d : Nat) : ∀ (b x pre rest : Str), d ∉ b →
    b ++ x = pre ++ d :: rest → ∃ more, pre = b ++ more ∧ x = more ++ d :: rest := by
  intro b
  induction b with
  | nil => intro x pre rest _ h; exact ⟨pre, rfl, by simpa using h⟩
  | cons a b ih =>
    intro x pre rest hb h
    cases pre with
    | nil =>
      simp only [List.nil_append, List.cons_append, List.cons.injEq] at h
      exact absurd (by rw [h.1]; simp) hb
    | cons q pre =>
      simp only [List.cons_append, List.cons.injEq] at h
      obtain ⟨more, h1, h2⟩ := ih x pre rest (fun hm => hb (List.mem_cons_of_mem _ hm)) h.2
      exact ⟨more, by rw [h.1, h1]; rfl, h2⟩

theorem connRead_spec (n : Nat) (hn : 0 < n) : ∀ rd : List (List Nat),
    (∀ rd2, connRead n rd = (none, rd2) → rd.flatten = [] ∧ rd2 = []) ∧
    (∀ d rd2, connRead n rd = (some d, rd2) →
      d ≠ [] ∧ d.length ≤ n ∧ rd.flatten = d ++ rd2.flatten) := by
  intro rd
  induction rd with
  | nil => simp [connRead]
  | cons c cs ih =>
    cases c with
    | nil => simpa [connRead] using ih
    | cons x xs =>
      constructor
      · intro rd2 h
        simp only [connRead] at h
        split at h <;> simp at h
      · intro d rd2 h
        simp only [connRead] at h
        split at h
        · rename_i hle
          simp only [Prod.mk.injEq, Option.some.injEq] at h
          rw [← h.1, ← h.2]
          exact ⟨by simp, hle, by simp⟩
        · simp only [Prod.mk.injEq, Option.some.injEq] at h
          rw [← h.1, ← h.2]
          refine ⟨?_, ?_, ?_⟩
          · cases n with
            | zero => omega
            | succ m => simp
          · simp
          · simp only [List.flatten_cons, ← List.append_assoc, List.take_append_drop]

theorem ReadStringAux_line (delim : Nat) : ∀ (fuel : Nat) (b : Reader) (acc pre rest : Str),
    b.rest = pre ++ delim :: rest → delim ∉ pre →
    2 * b.rd.flatten.length + (if bufSize ≤ b.buf.length then 1 else 0) + 1 ≤ fuel →
    ∃ b2, ReadStringAux delim fuel b acc = (acc ++ pre ++ [delim], b2) ∧ b2.rest = rest := by
  intro fuel
  induction fuel with
  | zero => intro b acc pre rest _ _ h; omega
  | succ fuel ih =>
    intro b acc pre rest hrest hpre hfuel
    have hspan := List.span_eq_take_drop (fun c => c != delim) b.buf
    have hsplit := List.takeWhile_append_dropWhile (fun c => c != delim) b.buf
    have htw : delim ∉ b.buf.takeWhile (fun c => c != delim) := by
      intro hm
      have := List.mem_takeWhile_imp hm
      simp at this
    cases hdw : b.buf.dropWhile (fun c => c != delim) with
    | cons d post =>
      have hd : d = delim := by
        have := List.head_dropWhile_not (fun c => c != delim) b.buf (by rw [hdw]; simp)
        simp only [hdw, List.head_cons] at this
        simpa using this
      subst hd
      rw [hdw] at hspan hsplit
      have hb : b.rest = b.buf.takeWhile (fun c => c != d) ++ d :: (post ++ b.rd.flatten) := by
        rw [Reader.rest]
        nth_rewrite 1 [← hsplit]
        simp
      rw [hrest] at hb
      obtain ⟨e1, e2⟩ := first_delim_unique d _ _ _ _ hpre htw hb
      refine ⟨{ b with buf := post }, ?_, ?_⟩
      · simp only [ReadStringAux, hspan, e1]
      · simp [Reader.rest, e2]
    | nil =>
      rw [hdw] at hspan hsplit
      simp only [List.append_nil] at hsplit
      rw [hsplit] at htw hspan
      obtain ⟨more, hm1, hm2⟩ := split_after_clean delim b.buf b.rd.flatten pre rest htw
        (by rw [← hrest]; rfl)
      by_cases hfull : bufSize ≤ b.buf.length
      · rw [if_pos hfull] at hfuel
        obtain ⟨b2, h1, h2⟩ := ih { b with buf := [] } (acc ++ b.buf) more rest
          (by simp [Reader.rest, hm2]) (fun hm => hpre (by rw [hm1]; simp [hm]))
          (by
            show 2 * b.rd.flatten.length + (if bufSize ≤ 0 then 1 else 0) + 1 ≤ fuel
            rw [if_neg (by decide)]
            omega)
        refine ⟨b2, ?_, h2⟩
        simp only [ReadStringAux, hspan, ge_iff_le, hfull, if_true]
        rw [h1, hm1]
        simp
      · rw [if_neg hfull] at hfuel
        have hcr := connRead_spec (bufSize - b.buf.length) (by omega) b.rd
        cases hc : connRead (bufSize - b.buf.length) b.rd with
        | mk od rd2 =>
          cases od with
          | none =>
            have := (hcr.1 rd2 hc).1
            rw [this] at hm2
            simp at hm2
          | some dd =>
            obtain ⟨hne, hlen, hfl⟩ := hcr.2 dd rd2 hc
            have hpos : 0 < dd.length := List.length_pos.mpr hne
            have hl : b.rd.flatten.length = dd.length + rd2.flatten.length := by
              rw [hfl]; simp
            obtain ⟨b2, h1, h2⟩ := ih { buf := b.buf ++ dd, rd := rd2 } acc pre rest
              (by rw [← hrest]; simp [Reader.rest, hfl])
              hpre (by split <;> simp only [] <;> omega)
            refine ⟨b2, ?_, h2⟩
            simp only [ReadStringAux, hspan, ge_iff_le, hfull, if_false, hc]
            exact h1

theorem ReadString_line (b : Reader) (pre rest : Str) (h : b.rest = pre ++ 10 :: rest)
    (hpre : 10 ∉ pre) :
    ∃ b2, b.ReadString 10 = (pre ++ [10], b2) ∧ b2.rest = rest := by
  obtain ⟨b2, h1, h2⟩ := ReadStringAux_line 10 (2 * b.rd.flatten.length + 2) b [] pre rest h hpre
    (by split <;> omega)
  exact ⟨b2, by simpa [Reader.ReadString] using h1, h2⟩

theorem span_clean (d : Nat) (l : Str) (h : d ∉ l) :
    l.span (fun c => c != d) = (l, []) := by
  have hall : ∀ x ∈ l, (fun c => c != d) x = true := by
    intro x hx
    have : x ≠ d := fun hc => h (hc ▸ hx)
    simpa using this
  rw [List.span_eq_take_drop, List.takeWhile_eq_self_iff.mpr hall,
    List.dropWhile_eq_nil_iff.mpr hall]

/-- At the end of the stream `ReadString` returns all that was left. -/
theorem ReadStringAux_eof (delim : Nat) : ∀ (fuel : Nat) (b : Reader) (acc : Str),
    delim ∉ b.rest →
    2 * b.rd.flatten.length + (if bufSize ≤ b.buf.length then 1 else 0) + 1 ≤ fuel →
    ∃ b2, ReadStringAux delim fuel b acc = (acc ++ b.rest, b2) ∧ b2.rest = [] := by
  intro fuel
  induction fuel with
  | zero => intro b acc _ h; omega
  | succ fuel ih =>
    intro b acc hclean hfuel
    have hbuf : delim ∉ b.buf := fun hm => hclean (by simp [Reader.rest, hm])
    have hspan := span_clean delim b.buf hbuf
    by_cases hfull : bufSize ≤ b.buf.length
    · rw [if_pos hfull] at hfuel
      obtain ⟨b2, h1, h2⟩ := ih { b with buf := [] } (acc ++ b.buf)
        (fun hm => hclean (by
          simp only [Reader.rest, List.nil_append] at hm
          simp [Reader.rest, hm]))
        (by
          show 2 * b.rd.flatten.length + (if bufSize ≤ 0 then 1 else 0) + 1 ≤ fuel
          rw [if_neg (by decide)]
          omega)
      refine ⟨b2, ?_, h2⟩
      simp only [ReadStringAux, hspan, ge_iff_le, hfull, if_true]
      rw [h1]
      simp [Reader.rest]
    · rw [if_neg hfull] at hfuel
      have hcr := connRead_spec (bufSize - b.buf.length) (by omega) b.rd
      cases hc : connRead (bufSize - b.buf.length) b.rd with
      | mk od rd2 =>
        cases od with
        | none =>
          obtain ⟨hfl, hrd2⟩ := hcr.1 rd2 hc
          refine ⟨{ buf := [], rd := rd2 }, ?_, by simp [Reader.rest, hrd2]⟩
          simp only [ReadStringAux, hspan, ge_iff_le, hfull, if_false, hc]
          simp [Reader.rest, hfl]
        | some dd =>
          obtain ⟨hne, _, hfl⟩ := hcr.2 dd rd2 hc
          have hpos : 0 < dd.length := List.length_pos.mpr hne
          have hl : b.rd.flatten.length = dd.length + rd2.flatten.length := by
            rw [hfl]; simp
          have hsame : (Reader.mk (b.buf ++ dd) rd2).rest = b.rest := by
            simp [Reader.rest, hfl]
          obtain ⟨b2, h1, h2⟩ := ih { buf := b.buf ++ dd, rd := rd2 } acc
            (by rw [hsame]; exact hclean) (by split <;> simp only [] <;> omega)
          refine ⟨b2, ?_, h2⟩
          simp only [ReadStringAux, hspan, ge_iff_le, hfull, if_false, hc]
          rw [h1, hsame]

theorem ReadString_eof (b : Reader) (h : 10 ∉ b.rest) :
    ∃ b2, b.ReadString 10 = (b.rest, b2) ∧ b2.rest = [] := by
  obtain ⟨b2, h1, h2⟩ := ReadStringAux_eof 10 (2 * b.rd.flatten.length + 2) b [] h
    (by split <;> omega)
  exact ⟨b2, by simpa [Reader.ReadString] using h1, h2⟩

/-! ## The header loop, line by line -/

theorem headerLoop_step (fuel : Nat) (reader reader2 : Reader) (requestID : Str)
    (contentLength : Int) (line : Str) (h : reader.ReadString 10 = (line, reader2)) :
    headerLoop (fuel + 1) reader requestID contentLength =
      if HasPrefix line (lit "Lambda-Runtime-Aws-Request-Id:") ∧ line.length < 31 then
        some Headers.panicked
      else if HasPrefix line (lit "Content-Length:") ∧ line.length < 16 then
        some Headers.panicked
      else if line = lit "\r\n" then
        some (Headers.done
          (if HasPrefix line (lit "Lambda-Runtime-Aws-Request-Id:") then TrimSpace (line.drop 31)
            else requestID)
          (if HasPrefix line (lit "Content-Length:") then (Atoi (TrimSpace (line.drop 16))).1
            else contentLength)
          reader2)
      else
        headerLoop fuel reader2
          (if HasPrefix line (lit "Lambda-Runtime-Aws-Request-Id:") then TrimSpace (line.drop 31)
            else requestID)
          (if HasPrefix line (lit "Content-Length:") then (Atoi (TrimSpace (line.drop 16))).1
            else contentLength) := by
  simp only [headerLoop, h]

/-- A line that is neither of the two headers nor the blank line changes nothing. -/
theorem headerLoop_other (fuel : Nat) (reader : Reader) (requestID : Str) (contentLength : Int)
    (pre rest : Str) (h : reader.rest = pre ++ 10 :: rest) (hpre : 10 ∉ pre)
    (h1 : HasPrefix (pre ++ [10]) (lit "Lambda-Runtime-Aws-Request-Id:") = false)
    (h2 : HasPrefix (pre ++ [10]) (lit "Content-Length:") = false)
    (h3 : pre ++ [10] ≠ lit "\r\n") :
    ∃ reader2, reader2.rest = rest ∧
      headerLoop (fuel + 1) reader requestID contentLength =
        headerLoop fuel reader2 requestID contentLength := by
  obtain ⟨reader2, hread, hrest⟩ := ReadString_line reader pre rest h hpre
  refine ⟨reader2, hrest, ?_⟩
  rw [headerLoop_step fuel reader reader2 requestID contentLength _ hread]
  simp [h1, h2, h3]

/-- The blank line ends the loop. -/
theorem headerLoop_blank (fuel : Nat) (reader : Reader) (requestID : Str) (contentLength : Int)
    (rest : Str) (h : reader.rest = lit "\r\n" ++ rest) :
    ∃ reader2, reader2.rest = rest ∧
      headerLoop (fuel + 1) reader requestID contentLength =
        some (Headers.done requestID contentLength reader2) := by
  obtain ⟨reader2, hread, hrest⟩ := ReadString_line reader [13] rest h (by decide)
  refine ⟨reader2, hrest, ?_⟩
  rw [headerLoop_step fuel reader reader2 requestID contentLength _ hread]
  have e : [13] ++ [10] = lit "\r\n" := rfl
  rw [e]
  have n1 : HasPrefix (lit "\r\n") (lit "Lambda-Runtime-Aws-Request-Id:") = false := rfl
  have n2 : HasPrefix (lit "\r\n") (lit "Content-Length:") = false := rfl
  simp [n1, n2]

/-- A `Content-Length` line sets the length to what `Atoi` reads after byte 16. -/
theorem headerLoop_contentLength (fuel : Nat) (reader : Reader) (requestID : Str)
    (contentLength : Int) (value rest : Str)
    (h : reader.rest = lit "Content-Length: " ++ (value ++ 13 :: 10 :: rest))
    (hv : 10 ∉ value) :
    ∃ reader2, reader2.rest = rest ∧
      headerLoop (fuel + 1) reader requestID contentLength =
        headerLoop fuel reader2 requestID (Atoi (TrimSpace (value ++ [13, 10]))).1 := by
  have hsplit : lit "Content-Length: " ++ (value ++ 13 :: 10 :: rest) =
      (lit "Content-Length: " ++ (value ++ [13])) ++ 10 :: rest := by simp
  obtain ⟨reader2, hread, hrest⟩ := ReadString_line reader
    (lit "Content-Length: " ++ (value ++ [13])) rest (by rw [h, hsplit])
    (by
      intro hm
      rcases List.mem_append.mp hm with hm | hm
      · revert hm; decide
      · rcases List.mem_append.mp hm with hm | hm
        · exact hv hm
        · revert hm; decide)
  refine ⟨reader2, hrest, ?_⟩
  rw [headerLoop_step fuel reader reader2 requestID contentLength _ hread]
  have eline : lit "Content-Length: " ++ (value ++ [13]) ++ [10] =
      lit "Content-Length: " ++ (value ++ [13, 10]) := by simp
  rw [eline]
  have n1 : HasPrefix (lit "Content-Length: " ++ (value ++ [13, 10]))
      (lit "Lambda-Runtime-Aws-Request-Id:") = false := rfl
  have n2 : HasPrefix (lit "Content-Length: " ++ (value ++ [13, 10]))
      (lit "Content-Length:") = true := rfl
  have n3 : (lit "Content-Length: " ++ (value ++ [13, 10])).drop 16 = value ++ [13, 10] := rfl
  have n4 : ¬ (lit "Content-Length: " ++ (value ++ [13, 10])).length < 16 := by
    rw [List.length_append]
    have : (lit "Content-Length: ").length = 16 := rfl
    omega
  have n5 : lit "Content-Length: " ++ (value ++ [13, 10]) ≠ lit "\r\n" := by
    intro hc
    have e1 : (lit "Content-Length: " ++ (value ++ [13, 10])).head? = some 67 := rfl
    have e2 : (lit "\r\n").head? = some 13 := rfl
    have := congrArg List.head? hc
    rw [e1, e2] at this
    simp at this
  rw [if_neg (by simp [n1]), if_neg (fun hc => n4 hc.2), if_neg n5]
  simp only [n1, n2, n3]
  simp

theorem Read_length_le (b : Reader) (n : Nat) : (b.Read n).1.length ≤ n := by
  unfold Reader.Read
  split
  · simp
  · rename_i hn
    split
    · split
      · rename_i hbig
        have hcr := connRead_spec n (by omega) b.rd
        cases hc : connRead n b.rd with
        | mk od rd2 =>
          cases od with
          | none => simp
          | some d => exact (hcr.2 d rd2 hc).2.1
      · cases hc : connRead bufSize b.rd with
        | mk od rd2 =>
          cases od with
          | none => simp
          | some d => simp [List.length_take]
    · simp [List.length_take]

theorem Read_prefix (b : Reader) (n : Nat) : (b.Read n).1 <+: b.rest := by
  unfold Reader.Read
  split
  · exact List.nil_prefix
  · rename_i hn
    split
    · rename_i hbuf
      split
      · have hcr := connRead_spec n (by omega) b.rd
        cases hc : connRead n b.rd with
        | mk od rd2 =>
          cases od with
          | none => exact List.nil_prefix
          | some d =>
            have := (hcr.2 d rd2 hc).2.2
            simp only [Reader.rest, hbuf, List.nil_append, this]
            exact List.prefix_append _ _
      · have hcr := connRead_spec bufSize (by decide) b.rd
        cases hc : connRead bufSize b.rd with
        | mk od rd2 =>
          cases od with
          | none => exact List.nil_prefix
          | some d =>
            have := (hcr.2 d rd2 hc).2.2
            simp only [Reader.rest, hbuf, List.nil_append, this]
            exact (List.take_prefix n d).trans (List.prefix_append _ _)
    · simp only [Reader.rest]
      exact (List.take_prefix n b.buf).trans (List.prefix_append _ _)

/-! ## Framing round trip -/

theorem TrimSpace_fmtUint_crlf (n : Nat) : TrimSpace (fmtUint n ++ [13, 10]) = fmtUint n := by
  obtain ⟨a, t, hat⟩ := List.exists_cons_of_ne_nil (fmtUint_ne_nil n)
  have ha := fmtUint_digits n a (by rw [hat]; simp)
  cases hrev : (fmtUint n).reverse with
  | nil => exact absurd (List.reverse_eq_nil_iff.mp hrev) (fmtUint_ne_nil n)
  | cons z u =>
    have hsnoc : fmtUint n = u.reverse ++ [z] := by
      have := congrArg List.reverse hrev
      simpa using this
    have hz := fmtUint_digits n z (by rw [hsnoc]; simp)
    rw [hat]
    exact TrimSpace_crlf a z t u.reverse (by rw [← hat, hsnoc]) (by omega)
      (by simp [asciiSpace]; omega) (by omega) (by simp [asciiSpace]; omega)

/-- The header loop on the bytes of a `sendResponse` request: the request line
and the `Host` line are passed over, the `Content-Length` line sets the length,
the blank line ends the loop with the body still to be read. -/
theorem headerLoop_sendResponse (fuel : Nat) (reader : Reader) (r host : Str) (b : List Nat)
    (hr : 10 ∉ r) (hh : 10 ∉ host) (hn : b.length < 2 ^ 63)
    (hrest : reader.rest = lit "POST /2018-06-01/runtime/invocation/" ++ r
        ++ lit "/response HTTP/1.1\r\nHost: " ++ host
        ++ lit "\r\nContent-Length: " ++ fmtUint b.length ++ lit "\r\n\r\n" ++ b) :
    ∃ reader2, reader2.rest = b ∧
      headerLoop (fuel + 4) reader [] 0 = some (Headers.done [] (b.length : Int) reader2) := by
  have e1 : lit "/response HTTP/1.1\r\nHost: " = lit "/response HTTP/1.1\r" ++ 10 :: lit "Host: " := rfl
  have e2 : lit "\r\nContent-Length: " = 13 :: 10 :: lit "Content-Length: " := rfl
  have e3 : lit "\r\n\r\n" = 13 :: 10 :: lit "\r\n" := rfl
  have shape : reader.rest =
      (lit "POST /2018-06-01/runtime/invocation/" ++ (r ++ lit "/response HTTP/1.1\r")) ++ 10 ::
        ((lit "Host: " ++ (host ++ [13])) ++ 10 ::
          (lit "Content-Length: " ++ (fmtUint b.length ++ 13 :: 10 :: (lit "\r\n" ++ b)))) := by
    rw [hrest, e1, e2, e3]
    simp only [List.append_assoc, List.cons_append, List.nil_append]
  obtain ⟨rd1, hrest1, step1⟩ := headerLoop_other (fuel + 3) reader [] 0 _ _ shape
    (by
      intro hm
      rcases List.mem_append.mp hm with hm | hm
      · revert hm; decide
      · rcases List.mem_append.mp hm with hm | hm
        · exact hr hm
        · revert hm; decide)
    rfl rfl
    (by
      intro hc
      have := congrArg List.head? hc
      have e : (lit "POST /2018-06-01/runtime/invocation/" ++ (r ++ lit "/response HTTP/1.1\r")
        ++ [10]).head? = some 80 := rfl
      rw [e] at this
      revert this
      decide)
  obtain ⟨rd2, hrest2, step2⟩ := headerLoop_other (fuel + 2) rd1 [] 0 _ _ hrest1
    (by
      intro hm
      rcases List.mem_append.mp hm with hm | hm
      · revert hm; decide
      · rcases List.mem_append.mp hm with hm | hm
        · exact hh hm
        · revert hm; decide)
    rfl rfl
    (by
      intro hc
      have := congrArg List.head? hc
      have e : (lit "Host: " ++ (host ++ [13]) ++ [10]).head? = some 72 := rfl
      rw [e] at this
      revert this
      decide)
  obtain ⟨rd3, hrest3, step3⟩ := headerLoop_contentLength (fuel + 1) rd2 [] 0 _ _ hrest2
    (fun hm => by have := fmtUint_digits _ _ hm; omega)
  obtain ⟨rd4, hrest4, step4⟩ := headerLoop_blank fuel rd3 []
    (Atoi (TrimSpace (fmtUint b.length ++ [13, 10]))).1 b hrest3
  refine ⟨rd4, hrest4, ?_⟩
  rw [step1, step2, step3, step4, TrimSpace_fmtUint_crlf, Atoi_fmtUint _ hn]

/-! ## The loop -/

theorem iteration_head (fuel : Nat) (client : runtimeAPIClient) (handlerFile handlerFunc : Str)
    (w : World) :
    ∃ tail, (iteration fuel client handlerFile handlerFunc w).1 =
      Event.getNextInvocation (getNextInvocation fuel w.memory client w.fetch) :: tail := by
  unfold iteration
  simp only []
  split
  · exact ⟨_, rfl⟩
  · exact ⟨_, rfl⟩
  · exact ⟨_, rfl⟩
  · exact ⟨_, rfl⟩
  · split <;> exact ⟨_, rfl⟩

theorem mainLoop_head (fuel : Nat) (client : runtimeAPIClient) (handlerFile handlerFunc : Str)
    (w : World) (ws : List World) :
    ∃ rest, (mainLoop fuel client handlerFile handlerFunc (w :: ws)).1 =
      Event.getNextInvocation (getNextInvocation fuel w.memory client w.fetch) :: rest := by
  obtain ⟨tail, ht⟩ := iteration_head fuel client handlerFile handlerFunc w
  unfold mainLoop
  split
  · rename_i events hev
    rw [hev] at ht
    simp only [] at ht
    exact ⟨tail ++ (mainLoop fuel client handlerFile handlerFunc ws).1, by simp [ht]⟩
  · rename_i events status _ hev
    rw [hev] at ht
    exact ⟨tail, ht⟩

theorem mainLoop_running (fuel : Nat) (client : runtimeAPIClient) (handlerFile handlerFunc : Str)
    (w : World) (ws : List World)
    (h : (iteration fuel client handlerFile handlerFunc w).2 = Status.running) :
    (mainLoop fuel client handlerFile handlerFunc (w :: ws)).1 =
      (iteration fuel client handlerFile handlerFunc w).1
        ++ (mainLoop fuel client handlerFile handlerFunc ws).1 := by
  rw [mainLoop]
  split
  · rename_i events hev
    simp [hev]
  · rename_i events status hne hev
    rw [hev] at h
    exact absurd h hne

theorem iteration_success (fuel : Nat) (client : runtimeAPIClient) (handlerFile handlerFunc : Str)
    (w : World) (r : Str) (p : List Nat)
    (hfetch : (getNextInvocation fuel w.memory client w.fetch).outcome = some (Fetched.returned r p none))
    (herr : (executeShellHandler w.bash handlerFile handlerFunc p).err = none) :
    iteration fuel client handlerFile handlerFunc w =
      ([Event.getNextInvocation (getNextInvocation fuel w.memory client w.fetch),
        Event.executeShellHandler handlerFile handlerFunc p
          (executeShellHandler w.bash handlerFile handlerFunc p),
        Event.sendResponse r (executeShellHandler w.bash handlerFile handlerFunc p).output
          (sendResponse client w.submit r
            (executeShellHandler w.bash handlerFile handlerFunc p).output)],
       Status.running) := by
  simp only [iteration, hfetch, herr]

theorem iteration_failure (fuel : Nat) (client : runtimeAPIClient) (handlerFile handlerFunc : Str)
    (w : World) (r : Str) (p : List Nat) (m : Str)
    (hfetch : (getNextInvocation fuel w.memory client w.fetch).outcome = some (Fetched.returned r p none))
    (herr : (executeShellHandler w.bash handlerFile handlerFunc p).err = some m) :
    iteration fuel client handlerFile handlerFunc w =
      ([Event.getNextInvocation (getNextInvocation fuel w.memory client w.fetch),
        Event.executeShellHandler handlerFile handlerFunc p
          (executeShellHandler w.bash handlerFile handlerFunc p),
        Event.sendError r m (sendError client w.submit r m)],
       Status.running) := by
  simp only [iteration, hfetch, herr]

theorem iteration_fetch_error (fuel : Nat) (client : runtimeAPIClient)
    (handlerFile handlerFunc : Str) (w : World) (r : Str) (p : List Nat) (e : Str)
    (hfetch : (getNextInvocation fuel w.memory client w.fetch).outcome =
      some (Fetched.returned r p (some e))) :
    iteration fuel client handlerFile handlerFunc w =
      ([Event.getNextInvocation (getNextInvocation fuel w.memory client w.fetch)], Status.running) := by
  simp only [iteration, hfetch]

/-! ## Responses without the request-id header, and short bodies -/

theorem contentLength_line_length (pre : Str)
    (h : HasPrefix (pre ++ [10]) (lit "Content-Length:") = true) :
    ¬ (pre ++ [10]).length < 16 := by
  intro hlt
  obtain ⟨t, ht⟩ := List.isPrefixOf_iff_prefix.mp h
  have hlen := congrArg List.length ht
  have h15 : (lit "Content-Length:").length = 15 := rfl
  rw [List.length_append, h15] at hlen
  have ht0 : t = [] := List.length_eq_zero.mp (by omega)
  rw [ht0, List.append_nil] at ht
  have := congrArg List.getLast? ht
  have e : (lit "Content-Length:").getLast? = some 58 := rfl
  rw [e] at this
  simp at this

theorem makeslice_allocated (memory n : Nat) (hmem : n ≤ memory) (hn : n < maxAlloc) :
    makeslice memory (n : Int) = Allocation.allocated := by
  unfold makeslice
  rw [if_neg (by omega), if_neg (by omega)]

theorem makeslice_lenOutOfRange (memory : Nat) (n : Int) (h : n < 0 ∨ n > maxAlloc) :
    makeslice memory n = Allocation.lenOutOfRange := by
  unfold makeslice
  rw [if_pos h]

theorem makeslice_outOfMemory (memory : Nat) (n : Int) (h0 : 0 ≤ n) (h1 : n ≤ maxAlloc)
    (h : n = maxAlloc ∨ n > memory) : makeslice memory n = Allocation.outOfMemory := by
  unfold makeslice
  rw [if_neg (by omega), if_pos (by omega)]

/-- After the header loop the call ends as the allocation of the body does. -/
theorem getNextInvocation_done (fuel memory : Nat) (c : runtimeAPIClient)
    (chunks : List (List Nat)) (requestID : Str) (n : Int) (reader : Reader)
    (hhdr : headerLoop fuel (NewReader chunks) [] 0 = some (Headers.done requestID n reader)) :
    (getNextInvocation fuel memory c (Dial.connected chunks)).outcome =
      match makeslice memory n with
      | Allocation.lenOutOfRange => some Fetched.panicked
      | Allocation.outOfMemory => some Fetched.outOfMemory
      | Allocation.allocated =>
        some (Fetched.returned requestID
          ((reader.Read n.toNat).1 ++ List.replicate (n.toNat - (reader.Read n.toNat).1.length) 0)
          none) := by
  simp only [getNextInvocation, hhdr]
  cases makeslice memory n <;> rfl

/-- The body returned once the header loop is done and the body allocated. -/
theorem getNextInvocation_body (fuel memory : Nat) (c : runtimeAPIClient)
    (chunks : List (List Nat)) (requestID : Str) (n : Nat) (reader : Reader)
    (hhdr : headerLoop fuel (NewReader chunks) [] 0 = some (Headers.done requestID n reader))
    (hmem : n ≤ memory) (hn : n < maxAlloc) :
    (getNextInvocation fuel memory c (Dial.connected chunks)).outcome =
      some (Fetched.returned requestID
        ((reader.Read n).1 ++ List.replicate (n - (reader.Read n).1.length) 0) none) := by
  rw [getNextInvocation_done fuel memory c chunks requestID n reader hhdr,
    makeslice_allocated memory n hmem hn]
  simp only [Int.toNat_ofNat]

/-- After the header loop: the body returned has the declared length; it
starts with the bytes the one `Read` delivered, a beginning of what was
still to come, and the rest of it is zero. -/
theorem getNextInvocation_after_headers (fuel memory : Nat) (c : runtimeAPIClient)
    (chunks : List (List Nat)) (requestID : Str) (n : Nat) (reader : Reader)
    (hhdr : headerLoop fuel (NewReader chunks) [] 0 = some (Headers.done requestID n reader))
    (hmem : n ≤ memory) (hn : n < maxAlloc) :
    ∃ k, k ≤ n ∧ k ≤ reader.rest.length ∧
      (getNextInvocation fuel memory c (Dial.connected chunks)).outcome =
        some (Fetched.returned requestID
          (reader.rest.take k ++ List.replicate (n - k) 0) none) := by
  have hpre := Read_prefix reader n
  have hle := Read_length_le reader n
  refine ⟨(reader.Read n).1.length, hle, hpre.length_le, ?_⟩
  rw [getNextInvocation_body fuel memory c chunks requestID n reader hhdr hmem hn,
    ← List.prefix_iff_eq_take.mp hpre]

/-! ## The header loop over a whole header block -/

theorem requestId_line_length (pre : Str)
    (h : HasPrefix (pre ++ [10]) (lit "Lambda-Runtime-Aws-Request-Id:") = true) :
    ¬ (pre ++ [10]).length < 31 := by
  intro hlt
  obtain ⟨t, ht⟩ := List.isPrefixOf_iff_prefix.mp h
  have hlen := congrArg List.length ht
  have h30 : (lit "Lambda-Runtime-Aws-Request-Id:").length = 30 := rfl
  rw [List.length_append, h30] at hlen
  have ht0 : t = [] := List.length_eq_zero.mp (by omega)
  rw [ht0, List.append_nil] at ht
  have := congrArg List.getLast? ht
  have e : (lit "Lambda-Runtime-Aws-Request-Id:").getLast? = some 58 := rfl
  rw [e] at this
  simp at this

/-- The header loop on a block of complete lines followed by the blank line:
it folds the lines into the two variables and stops at the blank line, with
what follows it still to be read. -/
theorem headerLoop_lines : ∀ (hdrs : List Str) (fuel : Nat) (reader : Reader)
    (requestID : Str) (contentLength : Int) (rest : Str),
    reader.rest = hdrs.flatten ++ lit "\r\n" ++ rest →
    (∀ l ∈ hdrs, IsLine l ∧ l ≠ lit "\r\n") →
    hdrs.length < fuel →
    ∃ reader2, reader2.rest = rest ∧
      headerLoop fuel reader requestID contentLength =
        some (Headers.done (hdrs.foldl headerStep (requestID, contentLength)).1
          (hdrs.foldl headerStep (requestID, contentLength)).2 reader2) := by
  intro hdrs
  induction hdrs with
  | nil =>
    intro fuel reader requestID contentLength rest hrest _ hfuel
    obtain ⟨f, rfl⟩ : ∃ f, fuel = f + 1 := ⟨fuel - 1, by simp at hfuel; omega⟩
    obtain ⟨reader2, h1, h2⟩ := headerLoop_blank f reader requestID contentLength rest
      (by simpa using hrest)
    exact ⟨reader2, h1, h2⟩
  | cons l ls ih =>
    intro fuel reader requestID contentLength rest hrest hlines hfuel
    obtain ⟨f, rfl⟩ : ∃ f, fuel = f + 1 := ⟨fuel - 1, by simp at hfuel; omega⟩
    obtain ⟨⟨pre, hl, hpre⟩, hne⟩ := hlines l (by simp)
    subst hl
    obtain ⟨reader1, hread, hrest1⟩ := ReadString_line reader pre
      (ls.flatten ++ lit "\r\n" ++ rest) (by rw [hrest]; simp) hpre
    obtain ⟨reader2, h1, h2⟩ := ih f reader1
      (headerStep (requestID, contentLength) (pre ++ [10])).1
      (headerStep (requestID, contentLength) (pre ++ [10])).2
      rest hrest1 (fun l2 hl2 => hlines l2 (List.mem_cons_of_mem _ hl2))
      (by simp at hfuel; omega)
    refine ⟨reader2, h1, ?_⟩
    rw [headerLoop_step f reader reader1 requestID contentLength _ hread]
    rw [if_neg (fun hc => requestId_line_length pre hc.1 hc.2),
      if_neg (fun hc => contentLength_line_length pre hc.1 hc.2), if_neg hne]
    exact h2

theorem lastHeader_concat (name : Str) (hdrs : List Str) (l : Str) :
    lastHeader name (hdrs ++ [l]) =
      if HasPrefix l name then some l else lastHeader name hdrs := by
  unfold lastHeader
  rw [List.filter_append]
  by_cases h : HasPrefix l name = true
  · simp [List.filter, h]
  · simp [List.filter, h]

/-- Folding the header lines gives the last occurrence of each header. -/
theorem foldl_headerStep (hdrs : List Str) (requestID : Str) (contentLength : Int) :
    hdrs.foldl headerStep (requestID, contentLength) =
      ((match lastHeader (lit "Lambda-Runtime-Aws-Request-Id:") hdrs with
        | none => requestID
        | some l => TrimSpace (l.drop 31)),
       (match lastHeader (lit "Content-Length:") hdrs with
        | none => contentLength
        | some l => (Atoi (TrimSpace (l.drop 16))).1)) := by
  induction hdrs using List.reverseRecOn with
  | nil => rfl
  | append_singleton ls l ih =>
    rw [List.foldl_append, ih, lastHeader_concat, lastHeader_concat]
    simp only [List.foldl_cons, List.foldl_nil, headerStep]
    by_cases h1 : HasPrefix l (lit "Lambda-Runtime-Aws-Request-Id:") = true <;>
      by_cases h2 : HasPrefix l (lit "Content-Length:") = true <;> simp [h1, h2]

theorem foldl_headerStep_start (hdrs : List Str) :
    hdrs.foldl headerStep ([], 0) = (requestIDOf hdrs, contentLengthOf hdrs) := by
  rw [foldl_headerStep]
  rfl

/-- Once the stream has ended the header loop reads empty lines and never stops. -/
theorem headerLoop_eof : ∀ (fuel : Nat) (reader : Reader) (requestID : Str)
    (contentLength : Int), reader.rest = [] →
    headerLoop fuel reader requestID contentLength = none := by
  intro fuel
  induction fuel with
  | zero => intro reader requestID contentLength _; rfl
  | succ f ih =>
    intro reader requestID contentLength hrest
    obtain ⟨reader2, hread, hrest2⟩ := ReadString_eof reader (by rw [hrest]; simp)
    rw [hrest] at hread
    rw [headerLoop_step f reader reader2 requestID contentLength _ hread]
    have n1 : HasPrefix [] (lit "Lambda-Runtime-Aws-Request-Id:") = false := rfl
    have n2 : HasPrefix [] (lit "Content-Length:") = false := rfl
    have n3 : ([] : Str) ≠ lit "\r\n" := by decide
    simp only [n1, n2, n3]
    simpa using ih reader2 requestID contentLength hrest2

/-- With a connection the call never returns an error. -/
theorem getNextInvocation_connected_no_error (fuel memory : Nat) (c : runtimeAPIClient)
    (chunks : List (List Nat)) (r : Str) (b : List Nat) (e : Str) :
    (getNextInvocation fuel memory c (Dial.connected chunks)).outcome ≠
      some (Fetched.returned r b (some e)) := by
  simp only [getNextInvocation]
  split
  · simp
  · simp
  · split <;> simp

theorem lastHeader_none (name : Str) (hdrs : List Str)
    (h : ∀ l ∈ hdrs, HasPrefix l name = false) : lastHeader name hdrs = none := by
  unfold lastHeader
  have : hdrs.filter (fun l => HasPrefix l name) = [] := by
    rw [List.filter_eq_nil_iff]
    intro l hl
    simp [h l hl]
  rw [this]
  rfl

theorem lastHeader_last (name : Str) (before after : List Str) (line : Str)
    (hline : HasPrefix line name = true) (hafter : ∀ l ∈ after, HasPrefix l name = false) :
    lastHeader name (before ++ line :: after) = some line := by
  unfold lastHeader
  have hnil : after.filter (fun l => HasPrefix l name) = [] := by
    rw [List.filter_eq_nil_iff]
    intro l hl
    simp [hafter l hl]
  rw [List.filter_append, List.filter_cons, if_pos hline, hnil]
  simp

/-- A line that is neither header leaves the two variables as they are. -/
theorem headerStep_other (state : Str × Int) (line : Str)
    (h1 : HasPrefix line (lit "Lambda-Runtime-Aws-Request-Id:") = false)
    (h2 : HasPrefix line (lit "Content-Length:") = false) :
    headerStep state line = state := by
  simp [headerStep, h1, h2]

/-- Inserting a line that is neither header into a header block leaves what
the header loop decodes from the block unchanged. -/
theorem foldl_headerStep_insert (before after : List Str) (line : Str) (state : Str × Int)
    (h1 : HasPrefix line (lit "Lambda-Runtime-Aws-Request-Id:") = false)
    (h2 : HasPrefix line (lit "Content-Length:") = false) :
    (before ++ line :: after).foldl headerStep state = (before ++ after).foldl headerStep state := by
  rw [List.foldl_append, List.foldl_cons, headerStep_other _ _ h1 h2, List.foldl_append]

/-- When nothing more is to come from the connection, the read delivers all
that is buffered, up to the size asked for. -/
theorem Read_all_buffered (b : Reader) (n : Nat) (hrd : b.rd.flatten = [])
    (hlen : b.rest.length ≤ n) : (b.Read n).1 = b.rest := by
  have hrest : b.rest = b.buf := by simp [Reader.rest, hrd]
  rw [hrest] at hlen ⊢
  unfold Reader.Read
  split
  · rename_i h0
    subst h0
    exact (List.length_eq_zero.mp (by omega)).symm
  · rename_i hn
    split
    · rename_i hbuf
      rw [hbuf]
      split
      · have hcr := connRead_spec n (by omega) b.rd
        cases hc : connRead n b.rd with
        | mk od rd2 =>
          cases od with
          | none => rfl
          | some d =>
            obtain ⟨hne, _, hfl⟩ := hcr.2 d rd2 hc
            rw [hrd] at hfl
            have : d = [] := (List.append_eq_nil.mp hfl.symm).1
            exact absurd this hne
      · have hcr := connRead_spec bufSize (by decide) b.rd
        cases hc : connRead bufSize b.rd with
        | mk od rd2 =>
          cases od with
          | none => rfl
          | some d =>
            obtain ⟨hne, _, hfl⟩ := hcr.2 d rd2 hc
            rw [hrd] at hfl
            have : d = [] := (List.append_eq_nil.mp hfl.symm).1
            exact absurd this hne
    · exact List.take_of_length_le hlen

/-- A stream of complete lines none of which is blank, and then the end of
the stream: the header loop never stops. -/
theorem headerLoop_lines_eof : ∀ (hdrs : List Str) (fuel : Nat) (reader : Reader)
    (requestID : Str) (contentLength : Int),
    reader.rest = hdrs.flatten →
    (∀ l ∈ hdrs, IsLine l ∧ l ≠ lit "\r\n") →
    headerLoop fuel reader requestID contentLength = none := by
  intro hdrs
  induction hdrs with
  | nil =>
    intro fuel reader requestID contentLength hrest _
    exact headerLoop_eof fuel reader requestID contentLength (by simpa using hrest)
  | cons l ls ih =>
    intro fuel reader requestID contentLength hrest hlines
    cases fuel with
    | zero => rfl
    | succ f =>
      obtain ⟨⟨pre, hl, hpre⟩, hne⟩ := hlines l (by simp)
      subst hl
      obtain ⟨reader1, hread, hrest1⟩ := ReadString_line reader pre ls.flatten
        (by rw [hrest]; simp) hpre
      rw [headerLoop_step f reader reader1 requestID contentLength _ hread]
      rw [if_neg (fun hc => requestId_line_length pre hc.1 hc.2),
        if_neg (fun hc => contentLength_line_length pre hc.1 hc.2), if_neg hne]
      exact ih f reader1 _ _ hrest1 (fun l2 hl2 => hlines l2 (List.mem_cons_of_mem _ hl2))

/-! ## Splitting the handler identity -/

theorem Split_no_sep (sep : Nat) : ∀ s : Str, sep ∉ s → Split s sep = [s] := by
  intro s
  induction s with
  | nil => intro _; rfl
  | cons c t ih =>
    intro h
    have hc : c ≠ sep := fun e => h (by simp [e])
    have ht : sep ∉ t := fun hm => h (List.mem_cons_of_mem _ hm)
    simp [Split, hc, ih ht]

theorem Split_head (sep : Nat) : ∀ s : Str,
    ∃ pieces, Split s sep = s.takeWhile (fun c => c != sep) :: pieces := by
  intro s
  induction s with
  | nil => exact ⟨[], rfl⟩
  | cons c t ih =>
    obtain ⟨pieces, hp⟩ := ih
    by_cases hc : c = sep
    · exact ⟨Split t sep, by simp [Split, hc]⟩
    · exact ⟨pieces, by simp [Split, hc, hp]⟩

theorem Split_sep (sep : Nat) (rest : Str) : ∀ first : Str, sep ∉ first →
    Split (first ++ sep :: rest) sep = first :: Split rest sep := by
  intro first
  induction first with
  | nil => intro _; simp [Split]
  | cons c t ih =>
    intro h
    have hc : c ≠ sep := fun e => h (by simp [e])
    have ht : sep ∉ t := fun hm => h (List.mem_cons_of_mem _ hm)
    simp [Split, hc, ih ht]

/-! ## Runes at the two ends of a string -/

theorem Decode_cons (s0 : Nat) (t : Str) :
    DecodeRuneInString (s0 :: t) =
      if s0 < 0x80 then (s0, 1)
      else if s0 < 0xC2 ∨ 0xF4 < s0 then (RuneError, 1)
      else decodeTail (if s0 < 0xE0 then 2 else if s0 < 0xF0 then 3 else 4)
        (if s0 = 0xE0 then 0xA0 else if s0 = 0xF0 then 0x90 else 0x80)
        (if s0 = 0xED then 0x9F else if s0 = 0xF4 then 0x8F else 0xBF) s0 t := rfl

theorem decodeTail_size (sz lo hi s0 : Nat) (t : Str) (h2 : 2 ≤ sz) :
    1 ≤ (decodeTail sz lo hi s0 t).2 ∧ (decodeTail sz lo hi s0 t).2 ≤ t.length + 1 := by
  match t with
  | [] =>
    simp only [decodeTail, List.length_nil]
    split_ifs <;> simp
  | [s1] =>
    simp only [decodeTail, List.length_cons, List.length_nil]
    split_ifs <;> simp
  | [s1, s2] =>
    simp only [decodeTail, List.length_cons, List.length_nil]
    split_ifs <;> simp <;> omega
  | s1 :: s2 :: s3 :: t3 =>
    simp only [decodeTail, List.length_cons]
    split_ifs <;> simp

theorem decodeTail_full_append (sz lo hi s0 : Nat) (t y : Str) (h2 : 2 ≤ sz) (h4 : sz ≤ 4)
    (hlo : 13 < lo)
    (h : (decodeTail sz lo hi s0 t).2 = t.length + 1) :
    (decodeTail sz lo hi s0 (t ++ 13 :: y)).2 = t.length + 1 := by
  match t with
  | [] =>
    simp only [decodeTail, List.nil_append, List.length_cons, List.length_nil]
    split_ifs <;> simp_all
  | [s1] =>
    simp only [decodeTail, List.length_cons, List.length_nil] at h
    simp only [decodeTail, List.cons_append, List.nil_append, List.length_cons, List.length_nil]
    split_ifs at h ⊢ <;> simp_all <;> omega
  | [s1, s2] =>
    simp only [decodeTail, List.length_cons, List.length_nil] at h
    simp only [decodeTail, List.cons_append, List.nil_append, List.length_cons, List.length_nil]
    split_ifs at h ⊢ <;> simp_all <;> omega
  | [s1, s2, s3] =>
    simp only [decodeTail, List.length_cons, List.length_nil] at h
    simp only [decodeTail, List.cons_append, List.nil_append, List.length_cons, List.length_nil]
    split_ifs at h ⊢ <;> simp_all <;> omega
  | s1 :: s2 :: s3 :: s4 :: t4 =>
    simp only [decodeTail, List.length_cons] at h
    split_ifs at h <;> simp at h

theorem decodeTail_rune_append (sz lo hi s0 : Nat) (t y : Str) (h4 : sz ≤ 4) (hlo : 13 < lo) :
    (decodeTail sz lo hi s0 (t ++ 13 :: y)).1 = (decodeTail sz lo hi s0 t).1
      ∨ (decodeTail sz lo hi s0 (t ++ 13 :: y)).1 = RuneError := by
  match t with
  | [] =>
    simp only [decodeTail, List.nil_append, List.length_cons, List.length_nil]
    split_ifs <;> simp_all
  | [s1] =>
    simp only [decodeTail, List.cons_append, List.nil_append, List.length_cons, List.length_nil]
    split_ifs <;> simp_all <;> omega
  | [s1, s2] =>
    simp only [decodeTail, List.cons_append, List.nil_append, List.length_cons, List.length_nil]
    split_ifs <;> simp_all <;> omega
  | s1 :: s2 :: s3 :: t3 =>
    simp only [decodeTail, List.cons_append, List.length_cons, List.length_append]
    split_ifs <;> simp_all <;> omega

theorem Decode_ascii (s0 : Nat) (t : Str) (h : s0 < 128) :
    DecodeRuneInString (s0 :: t) = (s0, 1) := by
  rw [Decode_cons, if_pos h]

theorem Decode_size (s : Str) (hs : s ≠ []) :
    1 ≤ (DecodeRuneInString s).2 ∧ (DecodeRuneInString s).2 ≤ s.length := by
  obtain ⟨s0, t, rfl⟩ := List.exists_cons_of_ne_nil hs
  rw [Decode_cons]
  by_cases h1 : s0 < 0x80
  · rw [if_pos h1]; simp
  · rw [if_neg h1]
    by_cases h2 : s0 < 0xC2 ∨ 0xF4 < s0
    · rw [if_pos h2]; simp
    · rw [if_neg h2]
      exact decodeTail_size _ _ _ s0 t (by split_ifs <;> omega)

theorem Decode_single (z : Nat) : (DecodeRuneInString [z]).2 = 1 := by
  have := Decode_size [z] (by simp)
  simp only [List.length_singleton] at this
  omega

theorem Decode_full_append (x y : Str) (hx : x ≠ [])
    (h : (DecodeRuneInString x).2 = x.length) :
    (DecodeRuneInString (x ++ 13 :: y)).2 = x.length := by
  obtain ⟨s0, t, rfl⟩ := List.exists_cons_of_ne_nil hx
  rw [List.cons_append, Decode_cons]
  rw [Decode_cons] at h
  by_cases h1 : s0 < 0x80
  · rw [if_pos h1] at h ⊢; exact h
  · rw [if_neg h1] at h ⊢
    by_cases h2 : s0 < 0xC2 ∨ 0xF4 < s0
    · rw [if_pos h2] at h ⊢; exact h
    · rw [if_neg h2] at h ⊢
      exact decodeTail_full_append _ _ _ s0 t y (by split_ifs <;> omega)
        (by split_ifs <;> omega) (by split_ifs <;> omega) h

theorem IsSpace_RuneError : IsSpace RuneError = false := by decide

theorem Decode_rune_append (x y : Str) (hx : x ≠ [])
    (h : IsSpace (DecodeRuneInString x).1 = false) :
    IsSpace (DecodeRuneInString (x ++ 13 :: y)).1 = false := by
  obtain ⟨s0, t, rfl⟩ := List.exists_cons_of_ne_nil hx
  rw [List.cons_append, Decode_cons]
  rw [Decode_cons] at h
  by_cases h1 : s0 < 0x80
  · rw [if_pos h1] at h ⊢; exact h
  · rw [if_neg h1] at h ⊢
    by_cases h2 : s0 < 0xC2 ∨ 0xF4 < s0
    · rw [if_pos h2] at h ⊢; exact h
    · rw [if_neg h2] at h ⊢
      rcases decodeTail_rune_append (if s0 < 0xE0 then 2 else if s0 < 0xF0 then 3 else 4)
        (if s0 = 0xE0 then 0xA0 else if s0 = 0xF0 then 0x90 else 0x80)
        (if s0 = 0xED then 0x9F else if s0 = 0xF4 then 0x8F else 0xBF) s0 t y
        (by split_ifs <;> omega) (by split_ifs <;> omega) with e | e
      · rw [e]; exact h
      · rw [e]; exact IsSpace_RuneError

theorem exists_snoc (s : Str) (hs : s ≠ []) : ∃ u z, s = u ++ [z] := by
  rcases List.eq_nil_or_concat s with h | ⟨u, z, h⟩
  · exact absurd h hs
  · exact ⟨u, z, by rw [h, List.concat_eq_append]⟩

theorem scanRuneStart_le (s : Str) (lim : Int) : ∀ (k : Nat) (start : Int),
    scanRuneStart s lim k start ≤ start := by
  intro k
  induction k with
  | zero => intro start; simp [scanRuneStart]
  | succ k ih =>
    intro start
    simp only [scanRuneStart]
    split_ifs
    · exact le_refl _
    · exact le_refl _
    · have := ih (start - 1)
      omega

theorem DecodeLast_snoc_ascii (u : Str) (z : Nat) (hz : z < 128) :
    DecodeLastRuneInString (u ++ [z]) = (z, 1) := by
  have hget : (u ++ [z]).getD ((u ++ [z]).length - 1) 0 = z := by
    rw [List.getD_append_right _ _ _ _ (by simp)]
    simp
  unfold DecodeLastRuneInString
  simp only []
  rw [if_neg (by simp), hget, if_pos hz]

/-- The last rune found by `DecodeLastRuneInString` takes between one byte and
the whole string, and decoding forwards from where it starts gives its width. -/
theorem DecodeLast_spec (s : Str) (hs : s ≠ []) :
    1 ≤ (DecodeLastRuneInString s).2 ∧ (DecodeLastRuneInString s).2 ≤ s.length
      ∧ (DecodeRuneInString (s.drop (s.length - (DecodeLastRuneInString s).2))).2 =
          (DecodeLastRuneInString s).2 := by
  have hlen : 0 < s.length := List.length_pos.mpr hs
  obtain ⟨u, z, huz⟩ := exists_snoc s hs
  have hlast : s.drop (s.length - 1) = [z] := by
    rw [huz]
    simp
  have hone : 1 ≤ (1 : Nat) ∧ (1 : Nat) ≤ s.length
      ∧ (DecodeRuneInString (s.drop (s.length - 1))).2 = 1 :=
    ⟨le_refl _, hlen, by rw [hlast]; exact Decode_single z⟩
  unfold DecodeLastRuneInString
  simp only []
  rw [if_neg (by omega)]
  by_cases h1 : s.getD (s.length - 1) 0 < 0x80
  · rw [if_pos h1]
    exact hone
  · rw [if_neg h1]
    have hle := scanRuneStart_le s (if (s.length : Int) - 4 < 0 then 0 else (s.length : Int) - 4)
      4 ((s.length : Int) - 2)
    generalize scanRuneStart s (if (s.length : Int) - 4 < 0 then 0 else (s.length : Int) - 4)
      4 ((s.length : Int) - 2) = sc at hle ⊢
    have hstart : (if sc < 0 then 0 else sc.toNat) < s.length := by
      by_cases hn : sc < 0
      · rw [if_pos hn]; omega
      · rw [if_neg hn]; omega
    generalize (if sc < 0 then 0 else sc.toNat) = start at hstart ⊢
    rcases hq : DecodeRuneInString (s.drop start) with ⟨r1, size⟩
    simp only []
    by_cases h2 : start + size ≠ s.length
    · rw [if_pos h2]
      exact hone
    · rw [if_neg h2]
      have h3 : start + size = s.length := not_not.mp h2
      have hne : s.drop start ≠ [] := by
        intro hc
        have := congrArg List.length hc
        simp at this
        omega
      have hsz := Decode_size (s.drop start) hne
      rw [hq] at hsz
      simp only [] at hsz ⊢
      refine ⟨hsz.1, by omega, ?_⟩
      have : s.length - size = start := by omega
      rw [this, hq]

theorem lastIndexFuncAux_found (f : Nat → Bool) (truth : Bool) (s : Str) (fuel i : Nat)
    (hi : i ≠ 0) (h : f (DecodeLastRuneInString (s.take i)).1 = truth) :
    lastIndexFuncAux f truth s (fuel + 1) i = some (i - (DecodeLastRuneInString (s.take i)).2) := by
  simp only [lastIndexFuncAux]
  rw [if_neg hi, if_pos h]

theorem lastIndexFuncAux_skip (f : Nat → Bool) (truth : Bool) (s : Str) (fuel i : Nat)
    (hi : i ≠ 0) (h : f (DecodeLastRuneInString (s.take i)).1 ≠ truth) :
    lastIndexFuncAux f truth s (fuel + 1) i =
      lastIndexFuncAux f truth s fuel (i - (DecodeLastRuneInString (s.take i)).2) := by
  simp only [lastIndexFuncAux]
  rw [if_neg hi, if_neg h]

/-- Where `TrimRightFunc` cuts once it has found the last rune that is not
space: with nothing or a carriage return after that rune, it cuts right
after it. -/
theorem trimRight_cut (r y : Str) (hr : r ≠ []) (hy : y = [] ∨ ∃ t, y = 13 :: t) :
    (if (r ++ y).getD (r.length - (DecodeLastRuneInString r).2) 0 ≥ 0x80 then
        (r ++ y).take (r.length - (DecodeLastRuneInString r).2
          + (DecodeRuneInString ((r ++ y).drop (r.length - (DecodeLastRuneInString r).2))).2)
      else (r ++ y).take (r.length - (DecodeLastRuneInString r).2 + 1)) = r := by
  obtain ⟨h1, h2, h3⟩ := DecodeLast_spec r hr
  generalize (DecodeLastRuneInString r).2 = size at h1 h2 h3 ⊢
  have hdrop : (r ++ y).drop (r.length - size) = r.drop (r.length - size) ++ y :=
    List.drop_append_of_le_length (by omega)
  have hxlen : (r.drop (r.length - size)).length = size := by simp; omega
  have hxne : r.drop (r.length - size) ≠ [] := by
    intro hc
    rw [hc] at hxlen
    simp at hxlen
    omega
  have hget : (r ++ y).getD (r.length - size) 0 = (r.drop (r.length - size)).getD 0 0 := by
    rw [List.getD_append _ _ _ _ (by omega)]
    simp [List.getD_eq_getElem?_getD, List.getElem?_drop]
  have htake : (r ++ y).take r.length = r := List.take_left r y
  split_ifs with hge
  · have hfull : (DecodeRuneInString (r.drop (r.length - size) ++ y)).2 = size := by
      rcases hy with rfl | ⟨t, rfl⟩
      · rw [List.append_nil]; exact h3
      · rw [Decode_full_append _ _ hxne (by rw [h3, hxlen]), hxlen]
    rw [hdrop, hfull]
    have : r.length - size + size = r.length := by omega
    rw [this, htake]
  · obtain ⟨x0, xt, hx⟩ := List.exists_cons_of_ne_nil hxne
    rw [hget, hx] at hge
    simp only [List.getD_cons_zero, ge_iff_le, not_le] at hge
    rw [hx, Decode_ascii x0 xt hge] at h3
    simp only [] at h3
    have : r.length - size + 1 = r.length := by omega
    rw [this, htake]

/-- `TrimRightFunc` leaves a string whose last rune is not space as it is. -/
theorem TrimRightFunc_clean (r : Str) (hr : r ≠ [])
    (hlast : IsSpace (DecodeLastRuneInString r).1 = false) :
    TrimRightFunc r IsSpace = r := by
  have hlen : 0 < r.length := List.length_pos.mpr hr
  obtain ⟨f, hf⟩ : ∃ f, r.length = f + 1 := ⟨r.length - 1, by omega⟩
  have hidx : lastIndexFunc r IsSpace false =
      some (r.length - (DecodeLastRuneInString r).2) := by
    unfold lastIndexFunc
    have := lastIndexFuncAux_found IsSpace false r f r.length (by omega)
      (by rw [List.take_length]; exact hlast)
    rw [List.take_length] at this
    rw [← hf] at this
    exact this
  have hcut := trimRight_cut r [] hr (Or.inl rfl)
  simp only [List.append_nil] at hcut
  simp only [TrimRightFunc, hidx]
  exact hcut

/-- `TrimRightFunc` drops a final carriage return and line feed after a
string whose last rune is not space. -/
theorem TrimRightFunc_crlf (r : Str) (hr : r ≠ [])
    (hlast : IsSpace (DecodeLastRuneInString r).1 = false) :
    TrimRightFunc (r ++ [13, 10]) IsSpace = r := by
  have hlen : 0 < r.length := List.length_pos.mpr hr
  obtain ⟨f, hf⟩ : ∃ f, r.length = f + 1 := ⟨r.length - 1, by omega⟩
  have hslen : (r ++ [13, 10]).length = f + 3 := by simp; omega
  have e1 : (r ++ [13, 10]).take (f + 3) = (r ++ [13]) ++ [10] := by
    rw [← hslen, List.take_length]; simp
  have e2 : (r ++ [13, 10]).take (f + 2) = r ++ [13] := by
    have : r ++ [13, 10] = (r ++ [13]) ++ [10] := by simp
    rw [this]
    exact List.take_left' (by simp; omega)
  have e3 : (r ++ [13, 10]).take (f + 1) = r := List.take_left' hf
  have hidx : lastIndexFunc (r ++ [13, 10]) IsSpace false =
      some (r.length - (DecodeLastRuneInString r).2) := by
    unfold lastIndexFunc
    rw [hslen]
    rw [lastIndexFuncAux_skip IsSpace false _ (f + 2) (f + 3) (by omega)
      (by rw [e1, DecodeLast_snoc_ascii _ 10 (by decide)]; decide)]
    rw [e1, DecodeLast_snoc_ascii _ 10 (by decide)]
    rw [show f + 3 - 1 = f + 2 by omega]
    rw [lastIndexFuncAux_skip IsSpace false _ (f + 1) (f + 2) (by omega)
      (by rw [e2, DecodeLast_snoc_ascii _ 13 (by decide)]; decide)]
    rw [e2, DecodeLast_snoc_ascii _ 13 (by decide)]
    rw [show f + 2 - 1 = f + 1 by omega]
    rw [lastIndexFuncAux_found IsSpace false _ f (f + 1) (by omega)
      (by rw [e3]; exact hlast)]
    rw [e3, hf]
  have hcut := trimRight_cut r [13, 10] hr (Or.inr ⟨[10], rfl⟩)
  simp only [TrimRightFunc, hidx]
  exact hcut

/-- `TrimLeftFunc` leaves a string whose first rune is not space as it is. -/
theorem TrimLeftFunc_clean (s : Str) (hs : s ≠ [])
    (hfirst : IsSpace (DecodeRuneInString s).1 = false) :
    TrimLeftFunc s IsSpace = s := by
  obtain ⟨c, t, rfl⟩ := List.exists_cons_of_ne_nil hs
  have hidx : indexFunc (c :: t) IsSpace false = some 0 := by
    unfold indexFunc
    simp only [List.length_cons, indexFuncAux]
    rw [if_pos hfirst]
  simp only [TrimLeftFunc, hidx, List.drop_zero]

theorem asciiSpace_of_not_IsSpace (c : Nat) (hc : c < 128) (h : IsSpace c = false) :
    asciiSpace c = false := by
  simp only [IsSpace, asciiSpace] at h ⊢
  rw [if_pos (by omega)] at h
  simp only [decide_eq_false_iff_not, not_or] at h ⊢
  exact ⟨h.1, h.2.1, h.2.2.1, h.2.2.2.1, h.2.2.2.2.1, h.2.2.2.2.2.1⟩

/-- Trimming the text of a header value: a value whose first and last runes
are not space comes back as it is, its line ending removed. -/
theorem TrimSpace_clean_crlf (r : Str)
    (hfirst : IsSpace (DecodeRuneInString r).1 = false)
    (hlast : IsSpace (DecodeLastRuneInString r).1 = false) :
    TrimSpace (r ++ [13, 10]) = r := by
  cases r with
  | nil => decide
  | cons a t =>
    have hr : a :: t ≠ [] := by simp
    by_cases ha : a < 128
    · have ha2 : asciiSpace a = false := by
        rw [Decode_ascii a t ha] at hfirst
        exact asciiSpace_of_not_IsSpace a ha hfirst
      obtain ⟨u, z, huz⟩ := exists_snoc (a :: t) hr
      have hrev : (a :: (t ++ [13, 10])).reverse = 10 :: 13 :: z :: u.reverse := by
        have : a :: (t ++ [13, 10]) = (u ++ [z]) ++ [13, 10] := by rw [← huz]; rfl
        rw [this]
        simp
      have e1 : TrimSpace (a :: t ++ [13, 10]) =
          trimSpaceStop (a :: (t ++ [13, 10])).reverse := by
        simp only [List.cons_append, TrimSpace]
        rw [if_neg (by omega), if_neg (by simp [ha2])]
        rfl
      rw [e1, hrev]
      have e2 : trimSpaceStop (10 :: 13 :: z :: u.reverse) = trimSpaceStop (z :: u.reverse) := by
        simp only [trimSpaceStop]
        rw [if_neg (by omega), if_pos (by decide), if_neg (by omega), if_pos (by decide)]
      rw [e2]
      have hzu : (z :: u.reverse).reverse = a :: t := by rw [huz]; simp
      by_cases hz : z < 128
      · have hz2 : asciiSpace z = false := by
          rw [huz, DecodeLast_snoc_ascii u z hz] at hlast
          exact asciiSpace_of_not_IsSpace z hz hlast
        simp only [trimSpaceStop]
        rw [if_neg (by omega), if_neg (by simp [hz2]), hzu]
      · simp only [trimSpaceStop]
        rw [if_pos (by omega), hzu]
        exact TrimRightFunc_clean (a :: t) hr hlast
    · have e1 : TrimSpace (a :: t ++ [13, 10]) = TrimFunc (a :: t ++ [13, 10]) IsSpace := by
        simp only [List.cons_append, TrimSpace]
        rw [if_pos (by omega)]
        rfl
      rw [e1, TrimFunc, TrimLeftFunc_clean _ (by simp)
        (Decode_rune_append (a :: t) [10] hr hfirst)]
      exact TrimRightFunc_crlf (a :: t) hr hlast

/-! ## A response delivered by one read -/

theorem ReadStringAux_rd_nil (delim : Nat) : ∀ (fuel : Nat) (b : Reader) (acc : Str),
    b.rd = [] → (ReadStringAux delim fuel b acc).2.rd = [] := by
  intro fuel
  induction fuel with
  | zero => intro b acc h; exact h
  | succ f ih =>
    intro b acc h
    simp only [ReadStringAux]
    split
    · exact h
    · split
      · exact ih _ _ h
      · rw [h]
        simp only [connRead]

theorem ReadString_single_chunk (resp : Str) (h : resp.length ≤ bufSize) :
    ((NewReader [resp]).ReadString 10).2.rd = [] := by
  obtain ⟨f, hf⟩ : ∃ f, 2 * (NewReader [resp]).rd.flatten.length + 2 = f + 1 := ⟨_, rfl⟩
  simp only [Reader.ReadString, hf]
  cases resp with
  | nil => simp [ReadStringAux, NewReader, connRead, List.span, List.span.loop, bufSize]
  | cons x xs =>
    have hspan : ([] : Str).span (fun c => c != 10) = ([], []) := rfl
    simp only [ReadStringAux, NewReader, hspan, List.length_nil, ge_iff_le]
    rw [if_neg (by decide)]
    simp only [connRead, Nat.sub_zero]
    rw [if_pos h]
    exact ReadStringAux_rd_nil 10 f _ _ rfl

/-- When the first line read leaves nothing to come from the connection, the
header loop ends with nothing to come from it either. -/
theorem headerLoop_rd_nil : ∀ (fuel : Nat) (reader reader2 : Reader) (requestID r : Str)
    (contentLength n : Int), (reader.ReadString 10).2.rd = [] →
    headerLoop fuel reader requestID contentLength = some (Headers.done r n reader2) →
    reader2.rd = [] := by
  intro fuel
  induction fuel with
  | zero => intro reader reader2 requestID r contentLength n _ h; simp [headerLoop] at h
  | succ f ih =>
    intro reader reader2 requestID r contentLength n hrd h
    rcases hread : reader.ReadString 10 with ⟨line, reader1⟩
    rw [hread] at hrd
    rw [headerLoop_step f reader reader1 requestID contentLength line hread] at h
    have hrd1 : reader1.rd = [] := hrd
    by_cases h1 : HasPrefix line (lit "Lambda-Runtime-Aws-Request-Id:") ∧ line.length < 31
    · rw [if_pos h1] at h
      simp at h
    · rw [if_neg h1] at h
      by_cases h2 : HasPrefix line (lit "Content-Length:") ∧ line.length < 16
      · rw [if_pos h2] at h
        simp at h
      · rw [if_neg h2] at h
        by_cases h3 : line = lit "\r\n"
        · rw [if_pos h3] at h
          simp only [Option.some.injEq, Headers.done.injEq] at h
          rw [← h.2.2]
          exact hrd1
        · rw [if_neg h3] at h
          exact ih reader1 reader2 _ r _ n
            (by
              simp only [Reader.ReadString]
              exact ReadStringAux_rd_nil 10 _ reader1 [] hrd1) h

/-- With nothing more to come from the connection the read delivers the
beginning of the buffer. -/
theorem Read_rd_nil (b : Reader) (n : Nat) (hrd : b.rd = []) :
    (b.Read n).1 = b.buf.take n := by
  unfold Reader.Read
  by_cases h0 : n = 0
  · rw [if_pos h0, h0]
    rfl
  · rw [if_neg h0]
    by_cases hb : b.buf = []
    · rw [if_pos hb, hb, hrd]
      by_cases hn : n ≥ bufSize
      · rw [if_pos hn]
        simp [connRead]
      · rw [if_neg hn]
        simp [connRead]
    · rw [if_neg hb]

/-- The header loop on a block of complete lines followed by the blank line
stops at that blank line: the request id and the length are those of the
lines before it, everything after it is left to be read as the body, and the
call does not return an error. -/
theorem header_loop_stops_at_first_blank_line (fuel memory : Nat) (c : runtimeAPIClient)
    (chunks : List (List Nat)) (hdrs : List Str) (rest : Str)
    (hstream : chunks.flatten = hdrs.flatten ++ lit "\r\n" ++ rest)
    (hlines : ∀ l ∈ hdrs, IsLine l ∧ l ≠ lit "\r\n")
    (hfuel : hdrs.length < fuel) :
    (∃ reader2, reader2.rest = rest ∧
      headerLoop fuel (NewReader chunks) [] 0 =
        some (Headers.done (requestIDOf hdrs) (contentLengthOf hdrs) reader2))
    ∧ ∀ r b e, (getNextInvocation fuel memory c (Dial.connected chunks)).outcome ≠
        some (Fetched.returned r b (some e)) := by
  obtain ⟨reader2, hrest, hloop⟩ := headerLoop_lines hdrs fuel (NewReader chunks) [] 0 rest
    (by simpa [Reader.rest, NewReader] using hstream) hlines hfuel
  rw [foldl_headerStep_start] at hloop
  exact ⟨⟨reader2, hrest, hloop⟩, getNextInvocation_connected_no_error fuel memory c chunks⟩

/-- A response of at most 4096 bytes delivered by one read of the connection
is all in the buffer, so all of its body is available to the read. -/
theorem bodyAvailable_single_read (fuel : Nat) (resp : Str) (hdrs : List Str) (b : List Nat)
    (hresp : resp = hdrs.flatten ++ lit "\r\n" ++ b)
    (hlines : ∀ l ∈ hdrs, IsLine l ∧ l ≠ lit "\r\n")
    (hfuel : hdrs.length < fuel) (hsize : resp.length ≤ bufSize) :
    bodyAvailable fuel [resp] b.length := by
  obtain ⟨reader2, hrest, hloop⟩ := headerLoop_lines hdrs fuel (NewReader [resp]) [] 0 b
    (by simp [Reader.rest, NewReader, hresp]) hlines hfuel
  have hrd := headerLoop_rd_nil fuel (NewReader [resp]) reader2 [] _ 0 _
    (ReadString_single_chunk resp hsize) hloop
  refine ⟨_, _, reader2, hloop, ?_⟩
  rw [Read_all_buffered reader2 b.length (by rw [hrd]; rfl) (by rw [hrest]), hrest]

/-! ## The properties -/

/-- C1, correlation invariant of one pass of the loop: when `getNextInvocation`
returns request `r` and payload `p` with a nil error, the pass makes exactly
one submission call, with the same `r`: `sendResponse r output` when the
handler returned no error, `sendError r message` when it returned one; the
events of the pass come before everything later, and what comes next is the
next call of `getNextInvocation`. -/
theorem correlation_invariant (fuel : Nat) (client : runtimeAPIClient)
    (handlerFile handlerFunc : Str) (w w2 : World) (ws : List World) (r : Str) (p : List Nat)
    (hfetch : (getNextInvocation fuel w.memory client w.fetch).outcome =
      some (Fetched.returned r p none)) :
    (∃ sub, (iteration fuel client handlerFile handlerFunc w).1.filter Event.isSubmission = [sub]
      ∧ ((executeShellHandler w.bash handlerFile handlerFunc p).err = none →
          sub = Event.sendResponse r (executeShellHandler w.bash handlerFile handlerFunc p).output
            (sendResponse client w.submit r
              (executeShellHandler w.bash handlerFile handlerFunc p).output))
      ∧ (∀ m, (executeShellHandler w.bash handlerFile handlerFunc p).err = some m →
          sub = Event.sendError r m (sendError client w.submit r m)))
    ∧ ∃ rest, (mainLoop fuel client handlerFile handlerFunc (w :: w2 :: ws)).1 =
        (iteration fuel client handlerFile handlerFunc w).1
          ++ Event.getNextInvocation (getNextInvocation fuel w2.memory client w2.fetch) :: rest := by
  obtain ⟨rest, hrest⟩ := mainLoop_head fuel client handlerFile handlerFunc w2 ws
  cases herr : (executeShellHandler w.bash handlerFile handlerFunc p).err with
  | none =>
    have hit := iteration_success fuel client handlerFile handlerFunc w r p hfetch herr
    refine ⟨⟨_, by rw [hit]; rfl, fun _ => rfl, fun m hm => by simp at hm⟩, rest, ?_⟩
    rw [mainLoop_running _ _ _ _ _ _ (by rw [hit]), hrest]
  | some m =>
    have hit := iteration_failure fuel client handlerFile handlerFunc w r p m hfetch herr
    refine ⟨⟨_, by rw [hit]; rfl, fun hn => by simp at hn, fun m2 hm => ?_⟩, rest, ?_⟩
    · simp only [Option.some.injEq] at hm
      rw [hm]
    · rw [mainLoop_running _ _ _ _ _ _ (by rw [hit]), hrest]

theorem correlation_invariant_witness :
    (∃ sub, (iteration 4 sampleClient (lit "handler.sh") (lit "run") sampleWorldOk).1.filter
        Event.isSubmission = [sub]
      ∧ ((executeShellHandler sampleWorldOk.bash (lit "handler.sh") (lit "run")
            (lit "\x7b\"n\":5\x7d")).err = none →
          sub = Event.sendResponse (lit "abc-123")
            (executeShellHandler sampleWorldOk.bash (lit "handler.sh") (lit "run")
              (lit "\x7b\"n\":5\x7d")).output
            (sendResponse sampleClient sampleWorldOk.submit (lit "abc-123")
              (executeShellHandler sampleWorldOk.bash (lit "handler.sh") (lit "run")
                (lit "\x7b\"n\":5\x7d")).output))
      ∧ (∀ m, (executeShellHandler sampleWorldOk.bash (lit "handler.sh") (lit "run")
            (lit "\x7b\"n\":5\x7d")).err = some m →
          sub = Event.sendError (lit "abc-123") m
            (sendError sampleClient sampleWorldOk.submit (lit "abc-123") m)))
    ∧ ∃ rest, (mainLoop 4 sampleClient (lit "handler.sh") (lit "run")
          (sampleWorldOk :: sampleWorldFail :: [])).1 =
        (iteration 4 sampleClient (lit "handler.sh") (lit "run") sampleWorldOk).1
          ++ Event.getNextInvocation (getNextInvocation 4 sampleWorldFail.memory sampleClient sampleWorldFail.fetch)
            :: rest :=
  correlation_invariant 4 sampleClient (lit "handler.sh") (lit "run") sampleWorldOk
    sampleWorldFail [] (lit "abc-123") (lit "\x7b\"n\":5\x7d") (by decide)

/-- C4, Content-Length exactness: what `sendResponse` and `sendError` write is
the request line, the `Host` line, a `Content-Length` line whose decimal
number is the length in bytes of the body, the blank line and the body; when
the dial fails nothing is written at all. -/
theorem content_length_exact (c : runtimeAPIClient) (incoming : List (List Nat))
    (requestID errorMsg err : Str) (response : List Nat) :
    (∃ digits, decimalValue digits = some response.length ∧
      (sendResponse c (Dial.connected incoming) requestID response).written =
        some (lit "POST /2018-06-01/runtime/invocation/" ++ requestID
          ++ lit "/response HTTP/1.1\r\nHost: " ++ c.host
          ++ lit "\r\nContent-Length: " ++ digits ++ lit "\r\n\r\n" ++ response))
    ∧ (∃ digits, decimalValue digits = some (errorPayload errorMsg).length ∧
      (sendError c (Dial.connected incoming) requestID errorMsg).written =
        some (lit "POST /2018-06-01/runtime/invocation/" ++ requestID
          ++ lit "/error HTTP/1.1\r\nHost: " ++ c.host
          ++ lit "\r\nContent-Length: " ++ digits ++ lit "\r\n\r\n" ++ errorPayload errorMsg))
    ∧ (sendResponse c (Dial.refused err) requestID response).written = none
    ∧ (sendError c (Dial.refused err) requestID errorMsg).written = none :=
  ⟨⟨fmtUint response.length, decimalValue_fmtUint _, sendResponse_written c incoming _ _⟩,
   ⟨fmtUint (errorPayload errorMsg).length, decimalValue_fmtUint _,
    sendError_written c incoming _ _⟩, rfl, rfl⟩

/-- C5, request framing: `getNextInvocation` writes exactly the `GET` request
line, the `Host` line and the blank line; `sendResponse` writes exactly the
`POST` request line, the `Host` line, the `Content-Length` line with the
decimal length of the body, the blank line and the body. -/
theorem request_framing (fuel memory : Nat) (c : runtimeAPIClient)
    (incoming : List (List Nat))
    (r : Str) (b : List Nat) :
    (getNextInvocation fuel memory c (Dial.connected incoming)).written =
      some (lit "GET /2018-06-01/runtime/invocation/next HTTP/1.1\r\nHost: " ++ c.host
        ++ lit "\r\n\r\n")
    ∧ (sendResponse c (Dial.connected incoming) r b).written =
      some (lit "POST /2018-06-01/runtime/invocation/" ++ r
        ++ lit "/response HTTP/1.1\r\nHost: " ++ c.host
        ++ lit "\r\nContent-Length: " ++ fmtUint b.length ++ lit "\r\n\r\n" ++ b)
    ∧ decimalValue (fmtUint b.length) = some b.length :=
  ⟨getNextInvocation_written fuel memory c incoming, sendResponse_written c incoming r b,
   decimalValue_fmtUint _⟩

/-- C6, success scenario: when the fetch returns `(r, p)` and the handler
returns output `o` without error, the pass makes one submission, the call
`sendResponse r o`, and on its connection that call writes one `POST` to
`/2018-06-01/runtime/invocation/r/response` whose body is `o`, byte for byte. -/
theorem success_scenario (fuel : Nat) (client : runtimeAPIClient)
    (handlerFile handlerFunc : Str) (w : World) (r : Str) (p o : List Nat)
    (hfetch : (getNextInvocation fuel w.memory client w.fetch).outcome =
      some (Fetched.returned r p none))
    (hrun : executeShellHandler w.bash handlerFile handlerFunc p = { output := o, err := none }) :
    (iteration fuel client handlerFile handlerFunc w).1.filter Event.isSubmission =
      [Event.sendResponse r o (sendResponse client w.submit r o)]
    ∧ ∀ incoming, w.submit = Dial.connected incoming →
      (sendResponse client w.submit r o).written =
        some (lit "POST /2018-06-01/runtime/invocation/" ++ r
          ++ lit "/response HTTP/1.1\r\nHost: " ++ client.host
          ++ lit "\r\nContent-Length: " ++ fmtUint o.length ++ lit "\r\n\r\n" ++ o) := by
  constructor
  · rw [iteration_success fuel client handlerFile handlerFunc w r p hfetch (by rw [hrun]), hrun]
    rfl
  · intro incoming hsub
    rw [hsub]
    exact sendResponse_written client incoming r o

theorem success_scenario_witness :
    (iteration 4 sampleClient (lit "handler.sh") (lit "run") sampleWorldOk).1.filter
        Event.isSubmission =
      [Event.sendResponse (lit "abc-123") (lit "\x7b\"n\":25\x7d")
        (sendResponse sampleClient sampleWorldOk.submit (lit "abc-123") (lit "\x7b\"n\":25\x7d"))]
    ∧ ∀ incoming, sampleWorldOk.submit = Dial.connected incoming →
      (sendResponse sampleClient sampleWorldOk.submit (lit "abc-123") (lit "\x7b\"n\":25\x7d")).written =
        some (lit "POST /2018-06-01/runtime/invocation/" ++ lit "abc-123"
          ++ lit "/response HTTP/1.1\r\nHost: " ++ sampleClient.host
          ++ lit "\r\nContent-Length: " ++ fmtUint (lit "\x7b\"n\":25\x7d").length ++ lit "\r\n\r\n"
          ++ lit "\x7b\"n\":25\x7d") :=
  success_scenario 4 sampleClient (lit "handler.sh") (lit "run") sampleWorldOk (lit "abc-123")
    (lit "\x7b\"n\":5\x7d") (lit "\x7b\"n\":25\x7d") (by decide) rfl

/-- C7, failure scenario: when the fetch returns `r` and the handler returns
an error with text `m`, the pass makes one submission, the call
`sendError r m`, and on its connection that call writes one `POST` to
`/2018-06-01/runtime/invocation/r/error` whose body is the template with `m`
in the message position; for `m = bad input` the body is exactly
`{"errorMessage": "bad input", "errorType": "Runtime.HandlerError"}`. -/
theorem failure_scenario (fuel : Nat) (client : runtimeAPIClient)
    (handlerFile handlerFunc : Str) (w : World) (r : Str) (p : List Nat) (m : Str)
    (hfetch : (getNextInvocation fuel w.memory client w.fetch).outcome =
      some (Fetched.returned r p none))
    (hrun : (executeShellHandler w.bash handlerFile handlerFunc p).err = some m) :
    (iteration fuel client handlerFile handlerFunc w).1.filter Event.isSubmission =
      [Event.sendError r m (sendError client w.submit r m)]
    ∧ (∀ incoming, w.submit = Dial.connected incoming →
      (sendError client w.submit r m).written =
        some (lit "POST /2018-06-01/runtime/invocation/" ++ r
          ++ lit "/error HTTP/1.1\r\nHost: " ++ client.host
          ++ lit "\r\nContent-Length: " ++ fmtUint (errorPayload m).length ++ lit "\r\n\r\n"
          ++ (lit "\x7b\"errorMessage\": \"" ++ m ++ lit "\", \"errorType\": \"Runtime.HandlerError\"\x7d")))
    ∧ errorPayload (lit "bad input") =
        lit "\x7b\"errorMessage\": \"bad input\", \"errorType\": \"Runtime.HandlerError\"\x7d" := by
  refine ⟨?_, ?_, by decide⟩
  · rw [iteration_failure fuel client handlerFile handlerFunc w r p m hfetch hrun]
    rfl
  · intro incoming hsub
    rw [hsub]
    exact sendError_written client incoming r m

theorem failure_scenario_witness :
    (iteration 4 sampleClient (lit "handler.sh") (lit "run") sampleWorldFail).1.filter
        Event.isSubmission =
      [Event.sendError (lit "err-1") (lit "bad input")
        (sendError sampleClient sampleWorldFail.submit (lit "err-1") (lit "bad input"))]
    ∧ (∀ incoming, sampleWorldFail.submit = Dial.connected incoming →
      (sendError sampleClient sampleWorldFail.submit (lit "err-1") (lit "bad input")).written =
        some (lit "POST /2018-06-01/runtime/invocation/" ++ lit "err-1"
          ++ lit "/error HTTP/1.1\r\nHost: " ++ sampleClient.host
          ++ lit "\r\nContent-Length: " ++ fmtUint (errorPayload (lit "bad input")).length
          ++ lit "\r\n\r\n"
          ++ (lit "\x7b\"errorMessage\": \"" ++ lit "bad input"
            ++ lit "\", \"errorType\": \"Runtime.HandlerError\"\x7d")))
    ∧ errorPayload (lit "bad input") =
        lit "\x7b\"errorMessage\": \"bad input\", \"errorType\": \"Runtime.HandlerError\"\x7d" :=
  failure_scenario 4 sampleClient (lit "handler.sh") (lit "run") sampleWorldFail (lit "err-1")
    (lit "\x7b\x7d") (lit "bad input") (by decide) rfl

/-- C10, fetch-failure scenario: when `getNextInvocation` returns an error the
pass consists of that call alone, with no call of the handler and no
submission, the process keeps running, and the next call of the loop is
`getNextInvocation` again. -/
theorem fetch_failure_scenario (fuel : Nat) (client : runtimeAPIClient)
    (handlerFile handlerFunc : Str) (w w2 : World) (ws : List World) (r : Str) (p : List Nat)
    (e : Str)
    (hfetch : (getNextInvocation fuel w.memory client w.fetch).outcome =
      some (Fetched.returned r p (some e))) :
    iteration fuel client handlerFile handlerFunc w =
      ([Event.getNextInvocation (getNextInvocation fuel w.memory client w.fetch)], Status.running)
    ∧ ∃ rest, (mainLoop fuel client handlerFile handlerFunc (w :: w2 :: ws)).1 =
        Event.getNextInvocation (getNextInvocation fuel w.memory client w.fetch)
          :: Event.getNextInvocation (getNextInvocation fuel w2.memory client w2.fetch) :: rest := by
  have hit := iteration_fetch_error fuel client handlerFile handlerFunc w r p e hfetch
  obtain ⟨rest, hrest⟩ := mainLoop_head fuel client handlerFile handlerFunc w2 ws
  refine ⟨hit, rest, ?_⟩
  rw [mainLoop_running _ _ _ _ _ _ (by rw [hit]), hrest, hit]
  rfl

theorem fetch_failure_scenario_witness :
    iteration 4 sampleClient (lit "handler.sh") (lit "run") sampleWorldRefused =
      ([Event.getNextInvocation (getNextInvocation 4 sampleWorldRefused.memory sampleClient sampleWorldRefused.fetch)],
        Status.running)
    ∧ ∃ rest, (mainLoop 4 sampleClient (lit "handler.sh") (lit "run")
          (sampleWorldRefused :: sampleWorldOk :: [])).1 =
        Event.getNextInvocation (getNextInvocation 4 sampleWorldRefused.memory sampleClient sampleWorldRefused.fetch)
          :: Event.getNextInvocation (getNextInvocation 4 sampleWorldOk.memory sampleClient sampleWorldOk.fetch)
          :: rest :=
  fetch_failure_scenario 4 sampleClient (lit "handler.sh") (lit "run") sampleWorldRefused
    sampleWorldOk [] [] [] (lit "dial tcp 127.0.0.1:9001: connect: connection refused") rfl

/-- C2, missing correlation header, as the code has it: a fetch response
without the request-id header is not an error; here the call returns a nil
error, an empty request id and the body. -/
theorem missing_request_id_is_no_error :
    (getNextInvocation 4 sampleMemory sampleClient (Dial.connected sampleNoRequestId)).outcome =
      some (Fetched.returned [] (lit "\x7b\x7d") none) := by
  decide

/-- C2, amended: for every fetch response whose header block, the complete
lines before the first blank line, has no line starting with
`Lambda-Runtime-Aws-Request-Id:`, `getNextInvocation` reports no error, and
how it ends is fixed by the length `n` the block declares.  When `n` is not
negative, below `maxAlloc` and within the memory, the call returns a nil
error, an empty request id and a body of `n` bytes: a beginning of the bytes
after the blank line, as many of them as `n` allows when the response came
in one read of at most 4096 bytes, followed by zero bytes.  When `n` is
negative or above `maxAlloc` the allocation of the body panics.  When `n` is
`maxAlloc` or more than the memory the process dies of the fatal error "out
of memory". -/
theorem missing_request_id_decodes_empty (fuel memory : Nat) (c : runtimeAPIClient)
    (chunks : List (List Nat)) (hdrs : List Str) (rest : Str)
    (hstream : chunks.flatten = hdrs.flatten ++ lit "\r\n" ++ rest)
    (hlines : ∀ l ∈ hdrs, IsLine l ∧ l ≠ lit "\r\n"
      ∧ HasPrefix l (lit "Lambda-Runtime-Aws-Request-Id:") = false)
    (hfuel : hdrs.length < fuel) :
    (0 ≤ contentLengthOf hdrs → contentLengthOf hdrs < maxAlloc →
      contentLengthOf hdrs ≤ memory →
      ∃ k, k ≤ rest.length ∧ k ≤ (contentLengthOf hdrs).toNat
        ∧ (∀ resp, chunks = [resp] → resp.length ≤ bufSize →
            k = min (contentLengthOf hdrs).toNat rest.length)
        ∧ (getNextInvocation fuel memory c (Dial.connected chunks)).outcome =
            some (Fetched.returned []
              (rest.take k ++ List.replicate ((contentLengthOf hdrs).toNat - k) 0) none))
    ∧ (contentLengthOf hdrs < 0 ∨ contentLengthOf hdrs > maxAlloc →
        (getNextInvocation fuel memory c (Dial.connected chunks)).outcome =
          some Fetched.panicked)
    ∧ (0 ≤ contentLengthOf hdrs → contentLengthOf hdrs ≤ maxAlloc →
        contentLengthOf hdrs = maxAlloc ∨ contentLengthOf hdrs > memory →
        (getNextInvocation fuel memory c (Dial.connected chunks)).outcome =
          some Fetched.outOfMemory) := by
  obtain ⟨reader2, hrest, hloop⟩ := headerLoop_lines hdrs fuel (NewReader chunks) [] 0 rest
    (by simpa [Reader.rest, NewReader] using hstream)
    (fun l hl => ⟨(hlines l hl).1, (hlines l hl).2.1⟩) hfuel
  rw [foldl_headerStep_start] at hloop
  have hrid : requestIDOf hdrs = [] := by
    unfold requestIDOf
    rw [lastHeader_none _ hdrs (fun l hl => (hlines l hl).2.2)]
  rw [hrid] at hloop
  have hdone := getNextInvocation_done fuel memory c chunks [] (contentLengthOf hdrs) reader2
    hloop
  generalize contentLengthOf hdrs = n at hloop hdone ⊢
  refine ⟨?_, ?_, ?_⟩
  · intro h0 hlt hmem
    obtain ⟨m, rfl⟩ := Int.eq_ofNat_of_zero_le h0
    have hpre := Read_prefix reader2 m
    have hle := Read_length_le reader2 m
    rw [hrest] at hpre
    refine ⟨(reader2.Read m).1.length, hpre.length_le, by simpa using hle, ?_, ?_⟩
    · intro resp hresp hsize
      subst hresp
      have hrd := headerLoop_rd_nil fuel (NewReader [resp]) reader2 [] _ 0 _
        (ReadString_single_chunk resp hsize) hloop
      have hbuf : reader2.buf = rest := by simpa [Reader.rest, hrd] using hrest
      rw [Read_rd_nil reader2 m hrd, hbuf]
      simp [List.length_take]
    · rw [hdone, makeslice_allocated memory m (by omega) (by omega)]
      simp only [Int.toNat_ofNat]
      rw [← List.prefix_iff_eq_take.mp hpre]
  · intro h
    rw [hdone, makeslice_lenOutOfRange memory n h]
  · intro h0 h1 h
    rw [hdone, makeslice_outOfMemory memory n h0 h1 h]

theorem missing_request_id_decodes_empty_witness :
    (0 ≤ contentLengthOf sampleNoRequestIdHeaders
      ∧ contentLengthOf sampleNoRequestIdHeaders < maxAlloc
      ∧ contentLengthOf sampleNoRequestIdHeaders ≤ sampleMemory)
    ∧ ∃ k, k ≤ (lit "\x7b\x7d").length ∧ k ≤ (contentLengthOf sampleNoRequestIdHeaders).toNat
        ∧ (∀ resp, sampleNoRequestId = [resp] → resp.length ≤ bufSize →
            k = min (contentLengthOf sampleNoRequestIdHeaders).toNat (lit "\x7b\x7d").length)
        ∧ (getNextInvocation 4 sampleMemory sampleClient
            (Dial.connected sampleNoRequestId)).outcome =
            some (Fetched.returned []
              ((lit "\x7b\x7d").take k
                ++ List.replicate ((contentLengthOf sampleNoRequestIdHeaders).toNat - k) 0)
              none) :=
  ⟨⟨by decide, by decide, by decide⟩,
   (missing_request_id_decodes_empty 4 sampleMemory sampleClient sampleNoRequestId
      sampleNoRequestIdHeaders (lit "\x7b\x7d") (by decide)
      (by
        intro l hl
        simp only [sampleNoRequestIdHeaders, List.mem_cons, List.mem_singleton,
          List.not_mem_nil, or_false] at hl
        rcases hl with rfl | rfl | rfl
        · exact ⟨⟨lit "HTTP/1.1 200 OK\r", by decide, by decide⟩, by decide, by decide⟩
        · exact ⟨⟨lit "Content-Type: application/json\r", by decide, by decide⟩, by decide,
            by decide⟩
        · exact ⟨⟨lit "Content-Length: 2\r", by decide, by decide⟩, by decide, by decide⟩)
      (by decide)).1 (by decide) (by decide) (by decide)⟩

/-- C3, at a failing input: the error text Go gives when `bash` is not on the
path contains double quotes; `sendError` copies it into the template as it
is, and the payload is not a JSON object any more. -/
theorem sendError_payload_not_json :
    errorPayload (lit "exec: \"bash\": executable file not found in $PATH") =
      lit "\x7b\"errorMessage\": \"exec: \"bash\": executable file not found in $PATH\", \"errorType\": \"Runtime.HandlerError\"\x7d"
    ∧ JSON.parseStringObject
        (errorPayload (lit "exec: \"bash\": executable file not found in $PATH")) = none
    ∧ JSON.parseStringObject (errorPayload (lit "bad input")) =
        some [(lit "errorMessage", lit "bad input"), (lit "errorType", lit "Runtime.HandlerError")] := by
  decide

/-- C8, framing round trip: the bytes `sendResponse` writes for a body `b`,
with a request id and a host free of line feeds, in whatever pieces they
arrive, make the decoder of `getNextInvocation` return a body of length
exactly `len b`, in a process that can allocate `len b` bytes. -/
theorem framing_roundtrip (fuel memory : Nat) (c decoder : runtimeAPIClient)
    (incoming chunks : List (List Nat)) (r : Str) (b : List Nat)
    (hr : 10 ∉ r) (hh : 10 ∉ c.host) (hmem : b.length ≤ memory) (hb : b.length < maxAlloc)
    (hsent : (sendResponse c (Dial.connected incoming) r b).written = some chunks.flatten)
    (hfuel : 4 ≤ fuel) :
    ∃ body, (getNextInvocation fuel memory decoder (Dial.connected chunks)).outcome =
        some (Fetched.returned [] body none) ∧ body.length = b.length := by
  obtain ⟨f, rfl⟩ : ∃ f, fuel = f + 4 := ⟨fuel - 4, by omega⟩
  rw [sendResponse_written] at hsent
  have hmax : maxAlloc = 2 ^ 48 := rfl
  obtain ⟨reader2, _, hloop⟩ := headerLoop_sendResponse f (NewReader chunks) r c.host b hr hh
    (by omega) (by
      simp only [Option.some.injEq] at hsent
      simp only [Reader.rest, NewReader, List.nil_append, ← hsent])
  obtain ⟨k, hk, _, hout⟩ := getNextInvocation_after_headers (f + 4) memory decoder chunks []
    b.length reader2 hloop hmem hb
  refine ⟨_, hout, ?_⟩
  simp only [List.length_append, List.length_take, List.length_replicate]
  omega

theorem framing_roundtrip_witness :
    ∃ body, (getNextInvocation 4 sampleMemory sampleClient (Dial.connected
        [lit "POST /2018-06-01/runtime/invocation/abc-123/response HTTP/1.1\r\nHost: 127.0.0.1:9001\r\nContent-Length: 4096\r\n\r\n",
          List.replicate 4096 120])).outcome = some (Fetched.returned [] body none)
      ∧ body.length = (List.replicate 4096 120).length :=
  framing_roundtrip 4 sampleMemory sampleClient sampleClient []
    [lit "POST /2018-06-01/runtime/invocation/abc-123/response HTTP/1.1\r\nHost: 127.0.0.1:9001\r\nContent-Length: 4096\r\n\r\n",
      List.replicate 4096 120]
    (lit "abc-123") (List.replicate 4096 120) (by decide) (by decide) (by decide!) (by decide!)
    (by decide!) (by decide)

/-- C9, as the code has it: the response that declares 100 bytes and is cut
after 40 gives the very result of a complete response of 100 bytes, a nil
error and a body of 100 bytes. -/
theorem truncated_body_same_as_complete :
    (getNextInvocation 5 sampleMemory sampleClient (Dial.connected sampleTruncated)).outcome =
      (getNextInvocation 5 sampleMemory sampleClient (Dial.connected sampleComplete)).outcome
    ∧ (getNextInvocation 5 sampleMemory sampleClient (Dial.connected sampleTruncated)).outcome =
      some (Fetched.returned (lit "abc-123") (List.replicate 40 120 ++ List.replicate 60 0) none) := by
  decide!

/-- C9, amended: a fetch response that declares `Content-Length: 100` and
delivers only 40 body bytes before the connection closes is not reported as
a distinct condition: `getNextInvocation`, in a process that can allocate the
100 bytes, returns a nil error and a body of 100 bytes, a beginning of the
delivered bytes followed by zero bytes. -/
theorem truncated_body_zero_padded (fuel memory : Nat) (c : runtimeAPIClient)
    (chunks : List (List Nat)) (requestID : Str) (reader : Reader)
    (hhdr : headerLoop fuel (NewReader chunks) [] 0 = some (Headers.done requestID 100 reader))
    (hshort : reader.rest.length = 40) (hmem : 100 ≤ memory) :
    ∃ k body, k ≤ 40 ∧ body = reader.rest.take k ++ List.replicate (100 - k) 0
      ∧ body.length = 100
      ∧ (getNextInvocation fuel memory c (Dial.connected chunks)).outcome =
          some (Fetched.returned requestID body none) := by
  obtain ⟨k, _, hk, hout⟩ := getNextInvocation_after_headers fuel memory c chunks requestID 100
    reader hhdr hmem (by decide)
  refine ⟨k, _, by omega, rfl, ?_, hout⟩
  simp only [List.length_append, List.length_take, List.length_replicate]
  omega

theorem truncated_body_zero_padded_witness :
    ∃ k body, k ≤ 40
      ∧ body = (Reader.mk (List.replicate 40 120) []).rest.take k ++ List.replicate (100 - k) 0
      ∧ body.length = 100
      ∧ (getNextInvocation 5 sampleMemory sampleClient (Dial.connected sampleTruncated)).outcome =
          some (Fetched.returned (lit "abc-123") body none) :=
  truncated_body_zero_padded 5 sampleMemory sampleClient sampleTruncated (lit "abc-123")
    (Reader.mk (List.replicate 40 120) []) (by decide) (by decide) (by decide)

/-- C11, missing Content-Length: for every fetch response whose header block,
the complete lines before the first blank line, has no line starting with
`Content-Length:`, `getNextInvocation` returns an empty body and a nil error,
whatever bytes follow the blank line. -/
theorem missing_content_length (fuel memory : Nat) (c : runtimeAPIClient)
    (chunks : List (List Nat)) (hdrs : List Str) (rest : Str)
    (hstream : chunks.flatten = hdrs.flatten ++ lit "\r\n" ++ rest)
    (hlines : ∀ l ∈ hdrs, IsLine l ∧ l ≠ lit "\r\n"
      ∧ HasPrefix l (lit "Content-Length:") = false)
    (hfuel : hdrs.length < fuel) :
    (getNextInvocation fuel memory c (Dial.connected chunks)).outcome =
      some (Fetched.returned (requestIDOf hdrs) [] none) := by
  obtain ⟨reader2, _, hloop⟩ := headerLoop_lines hdrs fuel (NewReader chunks) [] 0 rest
    (by simpa [Reader.rest, NewReader] using hstream)
    (fun l hl => ⟨(hlines l hl).1, (hlines l hl).2.1⟩) hfuel
  have hzero : contentLengthOf hdrs = 0 := by
    unfold contentLengthOf
    rw [lastHeader_none _ hdrs (fun l hl => (hlines l hl).2.2)]
  rw [foldl_headerStep_start, hzero] at hloop
  have hbody := getNextInvocation_body fuel memory c chunks (requestIDOf hdrs) 0 reader2
    (by simpa using hloop) (Nat.zero_le _) (by decide)
  rw [hbody]
  simp [Reader.Read]

theorem missing_content_length_witness :
    (getNextInvocation 4 sampleMemory sampleClient (Dial.connected sampleNoLength)).outcome =
      some (Fetched.returned
        (requestIDOf [lit "HTTP/1.1 200 OK\r\n", lit "Lambda-Runtime-Aws-Request-Id: abc-123\r\n"])
        [] none) :=
  missing_content_length 4 sampleMemory sampleClient sampleNoLength
    [lit "HTTP/1.1 200 OK\r\n", lit "Lambda-Runtime-Aws-Request-Id: abc-123\r\n"]
    (lit "bytes after the blank line") (by decide)
    (by
      intro l hl
      simp only [List.mem_cons, List.mem_singleton, List.not_mem_nil, or_false] at hl
      rcases hl with rfl | rfl
      · exact ⟨⟨lit "HTTP/1.1 200 OK\r", by decide, by decide⟩, by decide, by decide⟩
      · exact ⟨⟨lit "Lambda-Runtime-Aws-Request-Id: abc-123\r", by decide, by decide⟩,
          by decide, by decide⟩)
    (by decide)

/-- C12, at two failing inputs: a fetch response with the header
`Content-Length: -1` makes `make` panic, a response cut right after
`Content-Length:` makes the slice `line[16:]` panic; the panic ends the
process. -/
theorem control_plane_can_crash_the_runtime :
    (getNextInvocation 5 sampleMemory sampleClient (Dial.connected sampleNegativeLength)).outcome =
      some Fetched.panicked
    ∧ (getNextInvocation 5 sampleMemory sampleClient (Dial.connected sampleBareName)).outcome =
      some Fetched.panicked
    ∧ (iteration 5 sampleClient (lit "handler.sh") (lit "run") sampleWorldNegativeLength).2 =
      Status.crashed := by
  decide

/-- C13, at a failing input: a response of 4081 bytes delivered in one piece
decodes to its body of 4000 bytes; with one more header line the same
response has 4109 bytes, 13 of them beyond the buffer of the reader, and the
body returned ends in 13 zero bytes; the request id and the error are the same. -/
theorem extra_header_changes_body :
    (getNextInvocation 6 sampleMemory sampleClient (Dial.connected sampleLarge)).outcome =
      some (Fetched.returned (lit "abc-123") (List.replicate 4000 120) none)
    ∧ (getNextInvocation 6 sampleMemory sampleClient (Dial.connected sampleLargeExtra)).outcome =
      some (Fetched.returned (lit "abc-123")
        (List.replicate 3987 120 ++ List.replicate 13 0) none) := by
  decide!

/-- C15, as the code has it: the response that declares 10 bytes and delivers
4 gives a body of 10 bytes, the 4 delivered and 6 zero bytes, not a shorter one. -/
theorem short_read_keeps_declared_length :
    (getNextInvocation 5 sampleMemory sampleClient (Dial.connected sampleShort)).outcome =
      some (Fetched.returned (lit "abc-123") (lit "abcd" ++ List.replicate 6 0) none)
    ∧ ¬ (lit "abcd" ++ List.replicate 6 0).length < 10 := by
  decide

/-- C15, amended: for a fetch response that declares `Content-Length: n` and
has only `k < n` body bytes after the blank line, `getNextInvocation` does
not return a short body.  When `n` is below `maxAlloc` and within the memory
it returns a nil error and a body of exactly `n` bytes: a beginning of the
`k` delivered bytes, all `k` of them when the response came in one read of at
most 4096 bytes, followed by zero bytes.  When `n` is above `maxAlloc` the
allocation of the body panics, and when `n` is `maxAlloc` or more than the
memory the process dies of the fatal error "out of memory". -/
theorem short_read_zero_padded (fuel memory : Nat) (c : runtimeAPIClient)
    (chunks : List (List Nat)) (hdrs : List Str) (rest : Str) (n k : Nat)
    (hstream : chunks.flatten = hdrs.flatten ++ lit "\r\n" ++ rest)
    (hlines : ∀ l ∈ hdrs, IsLine l ∧ l ≠ lit "\r\n")
    (hfuel : hdrs.length < fuel)
    (hn : contentLengthOf hdrs = n) (hk : rest.length = k) (hlt : k < n) :
    (n < maxAlloc → n ≤ memory →
      ∃ j body, j ≤ k ∧ body = rest.take j ++ List.replicate (n - j) 0
        ∧ body.length = n
        ∧ (∀ resp, chunks = [resp] → resp.length ≤ bufSize → j = k)
        ∧ (getNextInvocation fuel memory c (Dial.connected chunks)).outcome =
            some (Fetched.returned (requestIDOf hdrs) body none))
    ∧ (maxAlloc < n →
        (getNextInvocation fuel memory c (Dial.connected chunks)).outcome =
          some Fetched.panicked)
    ∧ (n = maxAlloc ∨ (n < maxAlloc ∧ memory < n) →
        (getNextInvocation fuel memory c (Dial.connected chunks)).outcome =
          some Fetched.outOfMemory) := by
  obtain ⟨reader2, hrest, hloop⟩ := headerLoop_lines hdrs fuel (NewReader chunks) [] 0 rest
    (by simpa [Reader.rest, NewReader] using hstream) hlines hfuel
  rw [foldl_headerStep_start, hn] at hloop
  have hdone := getNextInvocation_done fuel memory c chunks (requestIDOf hdrs) n reader2 hloop
  refine ⟨?_, ?_, ?_⟩
  · intro hmax hmem
    have hpre := Read_prefix reader2 n
    rw [hrest] at hpre
    have hbody := getNextInvocation_body fuel memory c chunks (requestIDOf hdrs) n reader2
      hloop hmem hmax
    refine ⟨(reader2.Read n).1.length, _, by rw [← hk]; exact hpre.length_le, rfl, ?_, ?_, ?_⟩
    · simp only [List.length_append, List.length_take, List.length_replicate]
      have := hpre.length_le
      omega
    · intro resp hresp hsize
      subst hresp
      have hrd := headerLoop_rd_nil fuel (NewReader [resp]) reader2 [] _ 0 _
        (ReadString_single_chunk resp hsize) hloop
      rw [Read_all_buffered reader2 n (by rw [hrd]; rfl) (by rw [hrest]; omega), hrest, hk]
    · rw [hbody, ← List.prefix_iff_eq_take.mp hpre]
  · intro hbig
    rw [hdone, makeslice_lenOutOfRange memory n (Or.inr (by exact_mod_cast hbig))]
  · intro h
    rw [hdone, makeslice_outOfMemory memory n (by omega) (by
      have : n ≤ maxAlloc := by omega
      exact_mod_cast this) (by
      rcases h with h | h
      · exact Or.inl (by exact_mod_cast h)
      · exact Or.inr (by exact_mod_cast h.2))]

theorem short_read_zero_padded_witness :
    (10 < maxAlloc ∧ 10 ≤ sampleMemory)
    ∧ ∃ j body, j ≤ 4 ∧ body = (lit "abcd").take j ++ List.replicate (10 - j) 0
      ∧ body.length = 10
      ∧ (∀ resp, sampleShort = [resp] → resp.length ≤ bufSize → j = 4)
      ∧ (getNextInvocation 5 sampleMemory sampleClient (Dial.connected sampleShort)).outcome =
          some (Fetched.returned (requestIDOf sampleShortHeaders) body none) :=
  ⟨⟨by decide, by decide⟩,
   (short_read_zero_padded 5 sampleMemory sampleClient sampleShort sampleShortHeaders
      (lit "abcd") 10 4 (by decide)
      (by
        intro l hl
        simp only [sampleShortHeaders, List.mem_cons, List.mem_singleton, List.not_mem_nil,
          or_false] at hl
        rcases hl with rfl | rfl | rfl
        · exact ⟨⟨lit "HTTP/1.1 200 OK\r", by decide, by decide⟩, by decide⟩
        · exact ⟨⟨lit "Lambda-Runtime-Aws-Request-Id: abc-123\r", by decide, by decide⟩,
            by decide⟩
        · exact ⟨⟨lit "Content-Length: 10\r", by decide, by decide⟩, by decide⟩)
      (by decide) (by decide) (by decide) (by decide)).1 (by decide) (by decide)⟩

/-- C16, at a failing input: a fetch response whose stream ends after two
complete header lines, before any blank line.  The error of `ReadString` is
dropped, so the header loop reads empty lines for ever: the call has not
returned after 1000 lines, it never returns whatever the number of lines the
loop is given and whatever the memory, and the loop of `main` stays inside
that one fetch, so it never fetches again. -/
theorem malformed_framing_never_returns :
    (getNextInvocation 1000 sampleMemory sampleClient
      (Dial.connected sampleNoBlankLine)).outcome = none
    ∧ (∀ fuel memory,
        (getNextInvocation fuel memory sampleClient (Dial.connected sampleNoBlankLine)).outcome =
          none)
    ∧ ∀ fuel memory,
        (iteration fuel sampleClient (lit "handler.sh") (lit "run")
          (sampleWorldNoBlankLine memory)).2 = Status.blocked := by
  have hall : ∀ fuel memory,
      (getNextInvocation fuel memory sampleClient (Dial.connected sampleNoBlankLine)).outcome =
        none := by
    intro fuel memory
    have hloop := headerLoop_lines_eof
      [lit "HTTP/1.1 200 OK\r\n", lit "Lambda-Runtime-Aws-Request-Id: abc-123\r\n"] fuel
      (NewReader sampleNoBlankLine) [] 0 (by decide)
      (by
        intro l hl
        simp only [List.mem_cons, List.mem_singleton, List.not_mem_nil, or_false] at hl
        rcases hl with rfl | rfl
        · exact ⟨⟨lit "HTTP/1.1 200 OK\r", by decide, by decide⟩, by decide⟩
        · exact ⟨⟨lit "Lambda-Runtime-Aws-Request-Id: abc-123\r", by decide, by decide⟩,
            by decide⟩)
    simp only [getNextInvocation, hloop]
  refine ⟨hall 1000 sampleMemory, hall, ?_⟩
  intro fuel memory
  have h := hall fuel memory
  simp only [iteration, sampleWorldNoBlankLine, h]

/-- C17, handler identity: an empty `_HANDLER` resolves to `handler.sh` and
`run`; a value `resource.rest`, `resource` free of dots, resolves to
`resource.sh` and the text of `rest` up to its first dot or its end; a
non-empty value without a dot resolves to `handler.sh` and `run`. -/
theorem handler_resolution (resource rest h : Str) (hres : 46 ∉ resource)
    (hne : h ≠ []) (hnodot : 46 ∉ h) :
    resolveHandler [] = (lit "handler.sh", lit "run")
    ∧ resolveHandler (resource ++ 46 :: rest) =
        (resource ++ lit ".sh", rest.takeWhile (fun c => c != 46))
    ∧ resolveHandler h = (lit "handler.sh", lit "run") := by
  refine ⟨by decide, ?_, ?_⟩
  · obtain ⟨pieces, hp⟩ := Split_head 46 rest
    have hsplit := Split_sep 46 rest resource hres
    simp only [resolveHandler]
    rw [if_neg (show ¬ (resource ++ 46 :: rest = []) by simp), hsplit, hp]
    rw [if_neg (by simp)]
    rfl
  · simp only [resolveHandler]
    rw [if_neg hne, Split_no_sep 46 h hnodot]
    rfl

theorem handler_resolution_witness :
    resolveHandler [] = (lit "handler.sh", lit "run")
    ∧ resolveHandler (lit "index" ++ 46 :: lit "handler.extra") =
        (lit "index" ++ lit ".sh", (lit "handler.extra").takeWhile (fun c => c != 46))
    ∧ resolveHandler (lit "nodot") = (lit "handler.sh", lit "run") :=
  handler_resolution (lit "index") (lit "handler.extra") (lit "nodot") (by decide) (by decide)
    (by decide)

/-- C18, header value extraction: in a header block the request id decoded
is the trimmed text from byte 31 on of the last line that starts with
`Lambda-Runtime-Aws-Request-Id:`, and the length is what `Atoi` reads in the
trimmed text from byte 16 on of the last line that starts with
`Content-Length:`; so `Lambda-Runtime-Aws-Request-Id:abc` decodes to `bc` and
`Content-Length:5` to length 0. -/
theorem header_value_extraction (fuel : Nat) (chunks : List (List Nat))
    (before after : List Str) (line rest : Str)
    (hstream : chunks.flatten = (before ++ line :: after).flatten ++ lit "\r\n" ++ rest)
    (hlines : ∀ l ∈ before ++ line :: after, IsLine l ∧ l ≠ lit "\r\n")
    (hfuel : (before ++ line :: after).length < fuel) :
    (∃ requestID contentLength reader2,
      headerLoop fuel (NewReader chunks) [] 0 =
        some (Headers.done requestID contentLength reader2)
      ∧ (HasPrefix line (lit "Lambda-Runtime-Aws-Request-Id:") = true →
          (∀ l ∈ after, HasPrefix l (lit "Lambda-Runtime-Aws-Request-Id:") = false) →
          requestID = TrimSpace (line.drop 31))
      ∧ (HasPrefix line (lit "Content-Length:") = true →
          (∀ l ∈ after, HasPrefix l (lit "Content-Length:") = false) →
          contentLength = (Atoi (TrimSpace (line.drop 16))).1))
    ∧ TrimSpace ((lit "Lambda-Runtime-Aws-Request-Id:abc\r\n").drop 31) = lit "bc"
    ∧ (Atoi (TrimSpace ((lit "Content-Length:5\r\n").drop 16))).1 = 0
    ∧ (getNextInvocation 6 sampleMemory sampleClient (Dial.connected sampleNoSpace)).outcome =
        some (Fetched.returned (lit "bc") [] none) := by
  refine ⟨?_, by decide!, by decide!, by decide!⟩
  obtain ⟨reader2, _, hloop⟩ := headerLoop_lines (before ++ line :: after) fuel
    (NewReader chunks) [] 0 rest (by simpa [Reader.rest, NewReader] using hstream) hlines hfuel
  rw [foldl_headerStep_start] at hloop
  refine ⟨_, _, reader2, hloop, ?_, ?_⟩
  · intro hline hafter
    unfold requestIDOf
    rw [lastHeader_last _ before after line hline hafter]
  · intro hline hafter
    unfold contentLengthOf
    rw [lastHeader_last _ before after line hline hafter]

theorem header_value_extraction_witness :
    (∃ requestID contentLength reader2,
      headerLoop 6 (NewReader sampleNoSpace) [] 0 =
        some (Headers.done requestID contentLength reader2)
      ∧ (HasPrefix (lit "Lambda-Runtime-Aws-Request-Id:abc\r\n")
            (lit "Lambda-Runtime-Aws-Request-Id:") = true →
          (∀ l ∈ [lit "Content-Length:5\r\n"],
            HasPrefix l (lit "Lambda-Runtime-Aws-Request-Id:") = false) →
          requestID = TrimSpace ((lit "Lambda-Runtime-Aws-Request-Id:abc\r\n").drop 31))
      ∧ (HasPrefix (lit "Lambda-Runtime-Aws-Request-Id:abc\r\n") (lit "Content-Length:") = true →
          (∀ l ∈ [lit "Content-Length:5\r\n"], HasPrefix l (lit "Content-Length:") = false) →
          contentLength =
            (Atoi (TrimSpace ((lit "Lambda-Runtime-Aws-Request-Id:abc\r\n").drop 16))).1))
    ∧ TrimSpace ((lit "Lambda-Runtime-Aws-Request-Id:abc\r\n").drop 31) = lit "bc"
    ∧ (Atoi (TrimSpace ((lit "Content-Length:5\r\n").drop 16))).1 = 0
    ∧ (getNextInvocation 6 sampleMemory sampleClient (Dial.connected sampleNoSpace)).outcome =
        some (Fetched.returned (lit "bc") [] none) :=
  header_value_extraction 6 sampleNoSpace
    [lit "HTTP/1.1 200 OK\r\n", lit "Lambda-Runtime-Aws-Request-Id: first\r\n"]
    [lit "Content-Length:5\r\n"] (lit "Lambda-Runtime-Aws-Request-Id:abc\r\n") (lit "hello")
    (by decide!)
    (by
      intro l hl
      simp only [List.cons_append, List.nil_append, List.mem_cons, List.mem_singleton,
        List.not_mem_nil, or_false] at hl
      rcases hl with rfl | rfl | rfl | rfl
      · exact ⟨⟨lit "HTTP/1.1 200 OK\r", by decide, by decide⟩, by decide⟩
      · exact ⟨⟨lit "Lambda-Runtime-Aws-Request-Id: first\r", by decide, by decide⟩, by decide⟩
      · exact ⟨⟨lit "Lambda-Runtime-Aws-Request-Id:abc\r", by decide, by decide⟩, by decide⟩
      · exact ⟨⟨lit "Content-Length:5\r", by decide, by decide⟩, by decide⟩)
    (by decide)

/-- C14, decoding a well-formed fetch response: a status line, the line
`Lambda-Runtime-Aws-Request-Id: r`, the line `Content-Length: <len b>`, the
blank line and the body `b`, for a request id `r` without a line feed whose
first and last runes are not space, with all of `b` available to the read,
make `getNextInvocation` return `(r, b, nil)`, in a process that can allocate
`len b` bytes. -/
theorem well_formed_response_decodes (fuel memory : Nat) (c : runtimeAPIClient)
    (chunks : List (List Nat)) (status r : Str) (b : List Nat)
    (hstatus : IsLine status ∧ status ≠ lit "\r\n"
      ∧ HasPrefix status (lit "Lambda-Runtime-Aws-Request-Id:") = false
      ∧ HasPrefix status (lit "Content-Length:") = false)
    (hr : 10 ∉ r)
    (hfirst : IsSpace (DecodeRuneInString r).1 = false)
    (hlast : IsSpace (DecodeLastRuneInString r).1 = false)
    (hmem : b.length ≤ memory) (hb : b.length < maxAlloc)
    (hstream : chunks.flatten = status ++ lit "Lambda-Runtime-Aws-Request-Id: " ++ r
      ++ lit "\r\n" ++ lit "Content-Length: " ++ fmtUint b.length ++ lit "\r\n"
      ++ lit "\r\n" ++ b)
    (hfuel : 4 ≤ fuel)
    (havail : bodyAvailable fuel chunks b.length) :
    (getNextInvocation fuel memory c (Dial.connected chunks)).outcome =
      some (Fetched.returned r b none) := by
  have ecrlf : lit "\r\n" = [13, 10] := rfl
  have hmax : maxAlloc = 2 ^ 48 := rfl
  have hridPre : HasPrefix (lit "Lambda-Runtime-Aws-Request-Id: " ++ (r ++ [13, 10]))
      (lit "Lambda-Runtime-Aws-Request-Id:") = true := rfl
  have hridNoCl : HasPrefix (lit "Lambda-Runtime-Aws-Request-Id: " ++ (r ++ [13, 10]))
      (lit "Content-Length:") = false := rfl
  have hclPre : HasPrefix (lit "Content-Length: " ++ (fmtUint b.length ++ [13, 10]))
      (lit "Content-Length:") = true := rfl
  have hclNoRid : HasPrefix (lit "Content-Length: " ++ (fmtUint b.length ++ [13, 10]))
      (lit "Lambda-Runtime-Aws-Request-Id:") = false := rfl
  have hridDrop : (lit "Lambda-Runtime-Aws-Request-Id: " ++ (r ++ [13, 10])).drop 31 =
      r ++ [13, 10] := rfl
  have hclDrop : (lit "Content-Length: " ++ (fmtUint b.length ++ [13, 10])).drop 16 =
      fmtUint b.length ++ [13, 10] := rfl
  have hshape : chunks.flatten =
      [status, lit "Lambda-Runtime-Aws-Request-Id: " ++ (r ++ [13, 10]),
        lit "Content-Length: " ++ (fmtUint b.length ++ [13, 10])].flatten ++ lit "\r\n" ++ b := by
    rw [hstream, ecrlf]
    simp [List.flatten, List.append_assoc]
  have hlines : ∀ l ∈ [status, lit "Lambda-Runtime-Aws-Request-Id: " ++ (r ++ [13, 10]),
      lit "Content-Length: " ++ (fmtUint b.length ++ [13, 10])],
      IsLine l ∧ l ≠ lit "\r\n" := by
    intro l hl
    simp only [List.mem_cons, List.mem_singleton, List.not_mem_nil, or_false] at hl
    rcases hl with rfl | rfl | rfl
    · exact ⟨hstatus.1, hstatus.2.1⟩
    · refine ⟨⟨lit "Lambda-Runtime-Aws-Request-Id: " ++ (r ++ [13]), by simp, ?_⟩, ?_⟩
      · intro hm
        rcases List.mem_append.mp hm with hm | hm
        · revert hm; decide
        · rcases List.mem_append.mp hm with hm | hm
          · exact hr hm
          · revert hm; decide
      · intro hc
        have e : (lit "Lambda-Runtime-Aws-Request-Id: " ++ (r ++ [13, 10])).head? = some 76 := rfl
        have := congrArg List.head? hc
        rw [e, ecrlf] at this
        simp at this
    · refine ⟨⟨lit "Content-Length: " ++ (fmtUint b.length ++ [13]), by simp, ?_⟩, ?_⟩
      · intro hm
        rcases List.mem_append.mp hm with hm | hm
        · revert hm; decide
        · rcases List.mem_append.mp hm with hm | hm
          · have := fmtUint_digits _ _ hm; omega
          · revert hm; decide
      · intro hc
        have e : (lit "Content-Length: " ++ (fmtUint b.length ++ [13, 10])).head? = some 67 := rfl
        have := congrArg List.head? hc
        rw [e, ecrlf] at this
        simp at this
  obtain ⟨f, rfl⟩ : ∃ f, fuel = f + 4 := ⟨fuel - 4, by omega⟩
  obtain ⟨reader2, hrest, hloop⟩ := headerLoop_lines _ (f + 4) (NewReader chunks) [] 0 b
    (by simpa [Reader.rest, NewReader] using hshape) hlines (by simp)
  rw [foldl_headerStep_start] at hloop
  have hrid : requestIDOf [status, lit "Lambda-Runtime-Aws-Request-Id: " ++ (r ++ [13, 10]),
      lit "Content-Length: " ++ (fmtUint b.length ++ [13, 10])] = r := by
    unfold requestIDOf
    have hl := lastHeader_last (lit "Lambda-Runtime-Aws-Request-Id:") [status]
      [lit "Content-Length: " ++ (fmtUint b.length ++ [13, 10])]
      (lit "Lambda-Runtime-Aws-Request-Id: " ++ (r ++ [13, 10])) hridPre
      (by
        intro l hl
        simp only [List.mem_singleton] at hl
        rw [hl]
        exact hclNoRid)
    simp only [List.cons_append, List.nil_append] at hl
    rw [hl]
    simp only [hridDrop]
    exact TrimSpace_clean_crlf r hfirst hlast
  have hcl : contentLengthOf [status, lit "Lambda-Runtime-Aws-Request-Id: " ++ (r ++ [13, 10]),
      lit "Content-Length: " ++ (fmtUint b.length ++ [13, 10])] = (b.length : Int) := by
    unfold contentLengthOf
    have hl := lastHeader_last (lit "Content-Length:")
      [status, lit "Lambda-Runtime-Aws-Request-Id: " ++ (r ++ [13, 10])] []
      (lit "Content-Length: " ++ (fmtUint b.length ++ [13, 10])) hclPre
      (by intro l hl; simp at hl)
    simp only [List.cons_append, List.nil_append] at hl
    rw [hl]
    simp only [hclDrop]
    rw [TrimSpace_fmtUint_crlf, Atoi_fmtUint _ (by omega)]
  rw [hrid, hcl] at hloop
  obtain ⟨rid3, cl3, reader3, hloop3, hfull⟩ := havail
  rw [hloop] at hloop3
  simp only [Option.some.injEq, Headers.done.injEq] at hloop3
  rw [← hloop3.2.2] at hfull
  have hdata : (reader2.Read b.length).1 = b := by
    have hpre := Read_prefix reader2 b.length
    rw [hrest] at hpre
    exact hpre.eq_of_length hfull
  rw [getNextInvocation_body (f + 4) memory c chunks r b.length reader2 hloop hmem hb, hdata]
  simp

theorem well_formed_response_decodes_witness :
    (getNextInvocation 4 sampleMemory sampleClient (Dial.connected sampleInvocation)).outcome =
      some (Fetched.returned (lit "abc-123") (lit "\x7b\"n\":5\x7d") none) :=
  well_formed_response_decodes 4 sampleMemory sampleClient sampleInvocation
    (lit "HTTP/1.1 200 OK\r\n") (lit "abc-123") (lit "\x7b\"n\":5\x7d")
    ⟨⟨lit "HTTP/1.1 200 OK\r", by decide, by decide⟩, by decide, by decide, by decide⟩
    (by decide) (by decide) (by decide) (by decide) (by decide) (by decide!) (by decide)
    ⟨lit "abc-123", 7, Reader.mk (lit "\x7b\"n\":5\x7d") [], by decide!, by decide⟩

end LambdaShell
